import Mathlib

/-!
# Black Vault — verification of the core data layer and pipelines

A shallow embedding of the Black Vault personal content repository
(`src/backend/db.py`, `ingest.py`, `search.py`, `connections.py`,
`consolidate.py`).  Tables are modelled as Lean lists of typed rows,
ids as `Int`, and floating-point score arithmetic as exact rational
arithmetic (`ℚ`); square roots (cosine norms) live in `ℝ`.
External collaborators (text splitter, embedding service, LLM
enrichment) are passed in as function parameters, exactly where the
Python code calls out to them.
-/

deriving instance DecidableEq for Except

namespace BlackVault

/-- A row of the `items` table (`db.init_schema`).  Enrichment columns
`title`, `tags`, `summary`, `enriched` are carried because
`update_item_enrichment` writes them. -/
structure ItemRow where
  id : Int
  source_path : String
  source_type : String
  file_hash : Option String
  file_mtime : Option Int := none
  title : Option String := none
  tags : Option String := none
  summary : Option String := none
  enriched : Bool := false
  deriving Repr, DecidableEq

/-- A row of the `content` table: one text chunk of an item. -/
structure ContentRow where
  id : Int
  item_id : Int
  chunk_index : Int
  body : String
  deriving Repr, DecidableEq

/-- A row of the `embeddings` table: one vector per chunk. -/
structure EmbeddingRow where
  id : Int
  content_id : Int
  item_id : Int
  vector : List ℚ
  deriving Repr, DecidableEq

/-- A row of the `item_embeddings` table: the per-item metadata vector. -/
structure ItemEmbeddingRow where
  item_id : Int
  metadata_vector : List ℚ
  deriving Repr, DecidableEq

/-- A row of the `chunk_metadata` table.  Only the linking column
`content_id` matters for the verified claims; the LLM payload is kept
as an opaque id. -/
structure ChunkMetadataRow where
  id : Int
  content_id : Int
  deriving Repr, DecidableEq

/-- A row of the `connections` table, primary key `(item_a, item_b)`. -/
structure ConnectionRow where
  item_a : Int
  item_b : Int
  score : ℚ
  deriving Repr, DecidableEq

/-- A row of the `session_history` table. -/
structure SessionRow where
  id : Int
  item_id : Int
  deriving Repr, DecidableEq

/-- The whole DuckDB database file, plus the observable index state:
`hnsw_live` says whether the HNSW index currently exists, and the two
counters record how many times each index was actually (re)created. -/
structure Store where
  items : List ItemRow
  content : List ContentRow
  embeddings : List EmbeddingRow
  item_embeddings : List ItemEmbeddingRow
  chunk_metadata : List ChunkMetadataRow
  connections : List ConnectionRow
  session_history : List SessionRow
  item_seq : Int := 1
  content_seq : Int := 1
  emb_seq : Int := 1
  session_seq : Int := 1
  hnsw_live : Bool := false
  hnsw_creates : Nat := 0
  fts_creates : Nat := 0
  deriving Repr, DecidableEq

/-- A freshly initialised database (`init_schema`). -/
def emptyStore : Store :=
  { items := [], content := [], embeddings := [], item_embeddings := []
    chunk_metadata := [], connections := [], session_history := [] }

/-- `db.create_hnsw_index`: with `force_rebuild` the index is dropped
first; `CREATE INDEX IF NOT EXISTS` then recreates it only when it is
not live. -/
def create_hnsw_index (force_rebuild : Bool) (st : Store) : Store :=
  let st1 := if force_rebuild then { st with hnsw_live := false } else st
  if st1.hnsw_live then st1
  else { st1 with hnsw_live := true, hnsw_creates := st1.hnsw_creates + 1 }

/-- `db.create_fts_index`: drops and recreates the FTS index
unconditionally. -/
def create_fts_index (st : Store) : Store :=
  { st with fts_creates := st.fts_creates + 1 }

/-- `db.insert_item`: append a fresh row, return its id. -/
def insert_item (st : Store) (source_path source_type : String)
    (file_hash : Option String) (file_mtime : Option Int) : Int × Store :=
  let id := st.item_seq
  (id, { st with
          items := st.items ++ [{ id := id, source_path := source_path,
                                  source_type := source_type, file_hash := file_hash,
                                  file_mtime := file_mtime }]
          item_seq := st.item_seq + 1 })

/-- `db.get_item_by_hash`: first row of `items` matching the hash. -/
def get_item_by_hash (st : Store) (h : String) : Option ItemRow :=
  st.items.find? (fun it => it.file_hash = some h)

/-- `db.get_item`. -/
def get_item (st : Store) (item_id : Int) : Option ItemRow :=
  st.items.find? (fun it => it.id = item_id)

/-- `db.insert_content`: append a chunk row, return its id. -/
def insert_content (st : Store) (item_id chunk_index : Int) (body : String) :
    Int × Store :=
  let id := st.content_seq
  (id, { st with
          content := st.content ++ [{ id := id, item_id := item_id,
                                      chunk_index := chunk_index, body := body }]
          content_seq := st.content_seq + 1 })

/-- The successful `INSERT INTO embeddings` statement inside
`db.insert_embedding`. -/
def insert_embedding_row (st : Store) (content_id item_id : Int)
    (vector : List ℚ) : Int × Store :=
  let id := st.emb_seq
  (id, { st with
          embeddings := st.embeddings ++ [{ id := id, content_id := content_id,
                                            item_id := item_id, vector := vector }]
          emb_seq := st.emb_seq + 1 })

/-- `db.get_embeddings_for_item`: the vectors of an item, in table
order. -/
def get_embeddings_for_item (st : Store) (item_id : Int) : List (List ℚ) :=
  (st.embeddings.filter (fun e => e.item_id = item_id)).map (fun e => e.vector)

/-- `db.insert_connection`: canonicalise the pair to `(min, max)` and
upsert (`ON CONFLICT ... DO UPDATE SET score`). -/
def insert_connection (st : Store) (item_a item_b : Int) (score : ℚ) : Store :=
  let a := min item_a item_b
  let b := max item_a item_b
  if (st.connections.find? (fun r => r.item_a = a ∧ r.item_b = b)).isSome then
    let updated := st.connections.map
      (fun r => if r.item_a = a ∧ r.item_b = b then { r with score := score } else r)
    { st with connections := updated }
  else
    { st with connections := st.connections ++ [{ item_a := a, item_b := b, score := score }] }

/-- `db.update_item_enrichment`: optionally upsert the metadata
vector, then update the item's enrichment columns. -/
def update_item_enrichment (st : Store) (item_id : Int)
    (title tags summary : String) (metadata_vector : Option (List ℚ)) : Store :=
  let st1 : Store :=
    match metadata_vector with
    | none => st
    | some v =>
      if (st.item_embeddings.find? (fun r => r.item_id = item_id)).isSome then
        let updated := st.item_embeddings.map
          (fun r => if r.item_id = item_id then { r with metadata_vector := v } else r)
        { st with item_embeddings := updated }
      else
        { st with item_embeddings :=
            st.item_embeddings ++ [{ item_id := item_id, metadata_vector := v }] }
  let newItems := st1.items.map
    (fun it => if it.id = item_id then
      { it with title := some title, tags := some tags,
                summary := some summary, enriched := true } else it)
  { st1 with items := newItems }

/-- `db.delete_item`, first statement: `DELETE FROM session_history`. -/
def deleteSessionRows (st : Store) (item_id : Int) : Store :=
  { st with session_history := st.session_history.filter (fun r => r.item_id ≠ item_id) }

/-- `db.delete_item`, second statement: `DELETE FROM item_embeddings`. -/
def deleteItemEmbeddingRows (st : Store) (item_id : Int) : Store :=
  { st with item_embeddings := st.item_embeddings.filter (fun r => r.item_id ≠ item_id) }

/-- `db.delete_item`, third statement: `DELETE FROM connections WHERE
item_a = ? OR item_b = ?`. -/
def deleteConnectionRows (st : Store) (item_id : Int) : Store :=
  { st with connections :=
      st.connections.filter (fun r => ¬(r.item_a = item_id ∨ r.item_b = item_id)) }

/-- The chunk ids of an item (`SELECT id FROM content WHERE item_id = ?`). -/
def contentIdsOf (st : Store) (item_id : Int) : List Int :=
  (st.content.filter (fun c => c.item_id = item_id)).map (fun c => c.id)

/-- `db.delete_item`, embeddings statement: delete by the item's chunk
ids (a no-op when the id list is empty, exactly as in the source). -/
def deleteEmbeddingRowsByContent (st : Store) (content_ids : List Int) : Store :=
  { st with embeddings := st.embeddings.filter (fun e => e.content_id ∉ content_ids) }

/-- `db.delete_item`, chunk-metadata statement: delete by chunk ids. -/
def deleteChunkMetadataRowsByContent (st : Store) (content_ids : List Int) : Store :=
  { st with chunk_metadata := st.chunk_metadata.filter (fun m => m.content_id ∉ content_ids) }

/-- `db.delete_item`, content statement: `DELETE FROM content`. -/
def deleteContentRows (st : Store) (item_id : Int) : Store :=
  { st with content := st.content.filter (fun c => c.item_id ≠ item_id) }

/-- `db.delete_item`, item statement: `DELETE FROM items`, reporting
whether a row was removed (`rowcount > 0`). -/
def deleteItemRow (st : Store) (item_id : Int) : Bool × Store :=
  (st.items.any (fun it => it.id = item_id),
   { st with items := st.items.filter (fun it => it.id ≠ item_id) })

/-- `db.delete_item`: the ordered cascade — session views, item
embedding, connections, embeddings (by chunk id), chunk metadata,
chunks, then the item row; on success both indexes are rebuilt. -/
def delete_item (st : Store) (item_id : Int) : Bool × Store :=
  let st1 := deleteSessionRows st item_id
  let st2 := deleteItemEmbeddingRows st1 item_id
  let st3 := deleteConnectionRows st2 item_id
  let content_ids := contentIdsOf st3 item_id
  let st4 := deleteEmbeddingRowsByContent st3 content_ids
  let st5 := deleteChunkMetadataRowsByContent st4 content_ids
  let st6 := deleteContentRows st5 item_id
  let (deleted, st7) := deleteItemRow st6 item_id
  if deleted then (true, create_fts_index (create_hnsw_index true st7))
  else (deleted, st7)

/-! ## Self-healing embedding insertion (`db.insert_embedding`) -/

/-- Python's `needle in haystack` on character lists. -/
def hasInfix (needle : List Char) : List Char → Bool
  | [] => needle.isEmpty
  | c :: rest => needle.isPrefixOf (c :: rest) || hasInfix needle rest

/-- Whether an exception message matches the self-healing test in
`db.insert_embedding`: `"Duplicate keys" in str(e) or "HNSW" in str(e)
or "Constraint Error" in str(e)`. -/
def isIndexCorruptionError (msg : String) : Bool :=
  hasInfix "Duplicate keys".data msg.data ||
  hasInfix "HNSW".data msg.data ||
  hasInfix "Constraint Error".data msg.data

/-- Outcome of one attempt of the raw `INSERT INTO embeddings`
statement: success, or a DuckDB exception with its message. -/
inductive SqlOutcome where
  | ok : SqlOutcome
  | raised (msg : String) : SqlOutcome
  deriving Repr, DecidableEq

/-- `db.insert_embedding` with the two possible fates of the
underlying `INSERT` injected as `attempt1`/`attempt2`: on an index
corruption error the index is force-rebuilt and the insert retried
exactly once; any other error, and any error of the retry itself,
propagates. -/
def insert_embedding (attempt1 attempt2 : SqlOutcome) (st : Store)
    (content_id item_id : Int) (vector : List ℚ) :
    Except String (Int × Store) :=
  match attempt1 with
  | .ok => .ok (insert_embedding_row st content_id item_id vector)
  | .raised e =>
    if isIndexCorruptionError e then
      let st1 := create_hnsw_index true st
      match attempt2 with
      | .ok => .ok (insert_embedding_row st1 content_id item_id vector)
      | .raised e2 => .error e2
    else .error e

/-! ## Single-file ingestion (`ingest.ingest_file`) -/

/-- What `ingest_file` observes about the file at a resolved path:
whether it exists, the MD5 of its raw bytes, the `mimetypes`
suffix-based guess, and the filesystem mtime. -/
structure FileInfo where
  path : String
  present : Bool
  md5 : String
  mimeGuess : Option String
  mtime : Int
  deriving Repr, DecidableEq

/-- `ingest.detect_mime`: the `mimetypes` guess for the path suffix,
defaulting to `application/octet-stream`. -/
def detect_mime (f : FileInfo) : String :=
  f.mimeGuess.getD "application/octet-stream"

/-- The errors `ingest_file` can raise. -/
inductive IngestError where
  | fileNotFound (path : String)
  | duplicate (message : String) (existing_id : Int)
  | unsupportedType (mime : String)
  | emptyContent
  deriving Repr, DecidableEq

/-- `str(e)` for the exceptions raised by `ingest_file`. -/
def IngestError.message : IngestError → String
  | .fileNotFound p => "File not found: " ++ p
  | .duplicate m _ => m
  | .unsupportedType m =>
      "Unsupported file type: " ++ m ++ ". Only text/*, image/* and application/pdf supported."
  | .emptyContent => "File or image is empty/no text could be extracted."

/-- Python's `str.startswith`. -/
def strStartsWith (s pre : String) : Bool := pre.data.isPrefixOf s.data

/-- Python's `not text.strip()`: every character is whitespace. -/
def isBlankText (s : String) : Bool := s.data.all (fun c => c.isWhitespace)

/-- The MIME acceptance test on step 3 of `ingest_file` (the negation
of the guard that raises the unsupported-type error). -/
def mimeAccepted (mime : String) : Bool :=
  strStartsWith mime "text/" || strStartsWith mime "image/" || mime = "application/pdf"

/-- Step 7 of `ingest_file`, per chunk: insert the chunk row and its
embedding row. -/
def insertChunkAndEmbedding (item_id : Int) (s : Store)
    (icv : Nat × String × List ℚ) : Store :=
  let (content_id, s1) := insert_content s item_id icv.1 icv.2.1
  (insert_embedding_row s1 content_id item_id icv.2.2).2

/-- `ingest.ingest_file`.  The external collaborators are parameters:
`split` is the recursive character splitter, `embed` the batched
embedding call, and `enrich`/`connect` the step-8 enrichment and
connection discovery (each a store transformer given the new item id).
The store is returned alongside the outcome, so that an exception path
demonstrably leaves it untouched. -/
def ingest_file (split : String → List String)
    (embed : List String → List (List ℚ))
    (enrich : Int → Store → Store) (connect : Int → Store → Store)
    (f : FileInfo) (parsed_text : String) (rebuild_indexes : Bool)
    (st : Store) : Except IngestError Int × Store :=
  if f.present = false then (.error (.fileNotFound f.path), st)
  else
    let file_hash := f.md5
    match get_item_by_hash st file_hash with
    | some existing =>
      (.error (.duplicate ("Duplicate detected: " ++ f.path) existing.id), st)
    | none =>
      let mime := detect_mime f
      if ¬ mimeAccepted mime then (.error (.unsupportedType mime), st)
      else if isBlankText parsed_text then (.error .emptyContent, st)
      else
        let chunks := split parsed_text
        let vectors := embed chunks
        let source_type :=
          if mime = "application/pdf" then "pdf"
          else if strStartsWith mime "image/" then "image" else "text"
        let (item_id, st1) := insert_item st f.path source_type (some file_hash) (some f.mtime)
        let st2 := ((chunks.zip vectors).enum).foldl (insertChunkAndEmbedding item_id) st1
        let st3 :=
          if rebuild_indexes then create_fts_index (create_hnsw_index false st2) else st2
        let st4 := connect item_id (enrich item_id st3)
        (.ok item_id, st4)

/-! ## Batched ingestion (`ingest.IngestQueue`) -/

/-- The per-file record produced by `IngestQueue._safe_ingest`. -/
structure IngestResult where
  path : String
  success : Bool
  item_id : Option Int := none
  error : Option String := none
  is_duplicate : Bool := false
  duplicate_id : Option Int := none
  deriving Repr, DecidableEq

/-- Everything one queued worker sees: the path it was given, the
file's metadata, and the outcome of its own text extraction
(`read_text` / OCR), which may itself raise. -/
structure Job where
  path : String
  file : FileInfo
  extracted : Except String String
  deriving Repr

/-- `IngestQueue._safe_ingest`: run extraction and `ingest_file` with
index rebuilding deferred; `DuplicateError` becomes a successful
duplicate record, any other exception a failed record carrying
`str(e)`. -/
def safe_ingest (split : String → List String)
    (embed : List String → List (List ℚ))
    (enrich : Int → Store → Store) (connect : Int → Store → Store)
    (job : Job) (st : Store) : IngestResult × Store :=
  match job.extracted with
  | .error e => ({ path := job.path, success := false, error := some e }, st)
  | .ok text =>
    match ingest_file split embed enrich connect job.file text false st with
    | (.ok item_id, st1) =>
      ({ path := job.path, success := true, item_id := some item_id }, st1)
    | (.error (.duplicate _ existing_id), st1) =>
      ({ path := job.path, success := true, is_duplicate := true,
         duplicate_id := some existing_id }, st1)
    | (.error e, st1) =>
      ({ path := job.path, success := false, error := some e.message }, st1)

/-- `IngestQueue.drain`: join the pending futures in submission order
(modelled as one serialised interleaving of the workers), then rebuild
both indexes once; a rebuild failure (`rebuild_ok = false`) is logged
and swallowed, never surfacing to the caller. -/
def drainStep (split : String → List String)
    (embed : List String → List (List ℚ))
    (enrich connect : Int → Store → Store)
    (acc : List IngestResult × Store) (job : Job) : List IngestResult × Store :=
  let (r, s1) := safe_ingest split embed enrich connect job acc.2
  (acc.1 ++ [r], s1)

def drain (split : String → List String)
    (embed : List String → List (List ℚ))
    (enrich : Int → Store → Store) (connect : Int → Store → Store)
    (jobs : List Job) (rebuild_ok : Bool) (st : Store) :
    List IngestResult × Store :=
  let (results, st1) := jobs.foldl (drainStep split embed enrich connect) ([], st)
  let st2 := if rebuild_ok then create_fts_index (create_hnsw_index false st1) else st1
  (results, st2)

/-! ## Hybrid search fusion (`search.search`, steps 4–5)

The SQL stage hands the Python fusion code, for every retrieved chunk
row, the chunk cosine score, the metadata-vector score (`0.0` when the
item has no metadata vector) and the session score (`0.0` when there
is no session vector or no metadata vector).  A row is modelled by the
cosine distances the SQL computes, with `metaInfo = none` exactly when
`item_embeddings.metadata_vector` is NULL for the item. -/

/-- One row of `semantic_rows`: the underlying distances of one
retrieved chunk.  `metaInfo = some (metaDist, sessionDist)` when the
item has a metadata vector. -/
structure SemSqlRow where
  item_id : Int
  snippet : String
  chunkDist : ℚ
  metaInfo : Option (ℚ × ℚ)
  deriving Repr, DecidableEq

/-- `chunk_score = 1.0 - dist`. -/
def chunkScore (r : SemSqlRow) : ℚ := 1 - r.chunkDist

/-- `meta_score`: `1.0 - distance(metadata_vector, query)` when the
metadata vector exists, else `0.0` (the SQL `CASE WHEN`). -/
def metaScore (r : SemSqlRow) : ℚ :=
  match r.metaInfo with
  | some md => 1 - md.1
  | none => 0

/-- `session_score`: nonzero only when a session vector exists and the
item has a metadata vector. -/
def sessionScore (session_present : Bool) (r : SemSqlRow) : ℚ :=
  if session_present then
    match r.metaInfo with
    | some md => 1 - md.2
    | none => 0
  else 0

/-- The per-row `base_sem` of `search.search` step 4: blend in the
metadata score only when `meta_score > 0.0`, then add the recency
boost when `session_score > 0.4`. -/
def baseSemScore (session_present : Bool) (r : SemSqlRow) : ℚ :=
  let c := chunkScore r
  let m := metaScore r
  let s := sessionScore session_present r
  let base := if m > 0 then c * (7/10) + m * (3/10) else c
  if s > 2/5 then base + (s - 2/5) * (2/5) else base

/-- One step of the per-item dictionary collapse: keep the entry with
the larger score, replacing snippet and score together (the Python
`if item_id not in d or new > d[item_id]: d[item_id] = ...`). -/
def collapseStep (acc : List (Int × String × ℚ)) (e : Int × String × ℚ) :
    List (Int × String × ℚ) :=
  if (acc.find? (fun p => p.1 = e.1)).isSome then
    acc.map (fun p => if p.1 = e.1 ∧ p.2.2 < e.2.2 then e else p)
  else acc ++ [e]

/-- Collapse a row list to a per-item best map (insertion-ordered
association list, as a Python dict). -/
def collapsePairs (entries : List (Int × String × ℚ)) : List (Int × String × ℚ) :=
  entries.foldl collapseStep []

/-- The `semantic` dict of `search.search`. -/
def semanticMap (session_present : Bool) (rows : List SemSqlRow) :
    List (Int × String × ℚ) :=
  collapsePairs (rows.map (fun r => (r.item_id, r.snippet, baseSemScore session_present r)))

/-- One row of `lex_rows`: a BM25 hit. -/
structure LexRow where
  item_id : Int
  snippet : String
  score : ℚ
  deriving Repr, DecidableEq

/-- The `lexical` dict of `search.search`. -/
def lexicalMap (rows : List LexRow) : List (Int × String × ℚ) :=
  collapsePairs (rows.map (fun r => (r.item_id, r.snippet, r.score)))

/-- Association-list lookup (`d.get(item_id)`). -/
def alookup (m : List (Int × String × ℚ)) (i : Int) : Option (String × ℚ) :=
  (m.find? (fun p => p.1 = i)).map (fun p => p.2)

/-- A fused search result. -/
structure SearchHit where
  item_id : Int
  score : ℚ
  snippet : String
  deriving Repr, DecidableEq

/-- The fused record built for one item id in step 5 of
`search.search`: min-max normalise the item's best BM25 score over the
collapsed candidate set (an absent item contributes a raw `0.0`), and
fuse `0.6·sem + 0.4·lex_norm`. -/
def fuseHit (semantic lexical : List (Int × String × ℚ)) (i : Int) : SearchHit :=
  let lexVals := lexical.map (fun p => p.2.2)
  let minLex : ℚ := match lexVals with | [] => 0 | v :: tl => tl.foldl min v
  let maxLex : ℚ := match lexVals with | [] => 0 | v :: tl => tl.foldl max v
  let lexRange : ℚ :=
    if lexical = [] then 1 else if maxLex ≠ minLex then maxLex - minLex else 1
  let s_score := ((alookup semantic i).map (fun p => p.2)).getD 0
  let raw_l := ((alookup lexical i).map (fun p => p.2)).getD 0
  let l_norm := if lexical = [] then 0 else (raw_l - minLex) / lexRange
  let combined := s_score * (3/5) + l_norm * (2/5)
  let semSnip := ((alookup semantic i).map (fun p => p.1)).getD ""
  let snippet :=
    if semSnip ≠ "" then semSnip else ((alookup lexical i).map (fun p => p.1)).getD ""
  { item_id := i, score := combined, snippet := snippet }

/-- Steps 4–5 of `search.search`: collapse both retrieval sets, union
the item ids, build the fused records, sort descending and take
`limit`. -/
def fuseResults (session_present : Bool) (semRows : List SemSqlRow)
    (lexRows : List LexRow) (limit : Nat) : List SearchHit :=
  let semantic := semanticMap session_present semRows
  let lexical := lexicalMap lexRows
  let semIds := semantic.map (fun p => p.1)
  let all_ids := semIds ++ (lexical.map (fun p => p.1)).filter (fun i => i ∉ semIds)
  let results := all_ids.map (fuseHit semantic lexical)
  let sorted := results.insertionSort (fun a b => b.score ≤ a.score)
  sorted.take limit

/-! Specification-side scoring functions, written from the claim text
("per-item best", "min-max normalised over the retrieved set"), to be
compared with `fuseResults`. -/

/-- The maximum of a list of rationals, `none` on the empty list. -/
def bestOf : List ℚ → Option ℚ
  | [] => none
  | v :: tl =>
    match bestOf tl with
    | none => some v
    | some m => some (max v m)

/-- Maximum of two optional scores (used to state the collapse
lemmas). -/
def omax : Option ℚ → Option ℚ → Option ℚ
  | none, y => y
  | some x, none => some x
  | some x, some y => some (max x y)

/-- First-occurrence deduplication of a key list. -/
def dedupFirst (l : List Int) : List Int :=
  l.foldl (fun ks k => if k ∈ ks then ks else ks ++ [k]) []

/-- The claim's per-row semantic base: `0.7·chunk + 0.3·meta` *when a
metadata vector exists*, else `chunk`, plus the recency boost when
`session_score > 0.4`.  (The source instead tests `meta_score > 0`.) -/
def claimBaseSem (session_present : Bool) (r : SemSqlRow) : ℚ :=
  let c := chunkScore r
  let m := metaScore r
  let s := sessionScore session_present r
  let base := if r.metaInfo.isSome then c * (7/10) + m * (3/10) else c
  if s > 2/5 then base + (s - 2/5) * (2/5) else base

/-- The claim's per-item semantic score: best of `claimBaseSem` over
the item's retrieved rows, `0` when there are none. -/
def claimSem (session_present : Bool) (rows : List SemSqlRow) (i : Int) : ℚ :=
  (bestOf ((rows.filter (fun r => r.item_id = i)).map (claimBaseSem session_present))).getD 0

/-- The per-item best semantic score as the source computes it (with
the `meta_score > 0` test). -/
def codeSem (session_present : Bool) (rows : List SemSqlRow) (i : Int) : ℚ :=
  (bestOf ((rows.filter (fun r => r.item_id = i)).map (baseSemScore session_present))).getD 0

/-- The item's best BM25 score among the retrieved rows. -/
def bestLex (rows : List LexRow) (i : Int) : Option ℚ :=
  bestOf ((rows.filter (fun r => r.item_id = i)).map (fun r => r.score))

/-- The per-item best BM25 scores of the retrieved candidate set, in
first-occurrence item order (the values the source min-max normalises
over). -/
def lexCandidateBests (rows : List LexRow) : List ℚ :=
  (dedupFirst (rows.map (fun r => r.item_id))).map (fun i => (bestLex rows i).getD 0)

/-- The claim's `lex_norm`: the item's best BM25 score min-max
normalised over the candidate set, and `0` when all candidate scores
are equal or when the item has no BM25 score. -/
def claimLexNorm (rows : List LexRow) (i : Int) : ℚ :=
  match bestLex rows i with
  | none => 0
  | some b =>
    match lexCandidateBests rows with
    | [] => 0
    | v :: tl =>
      let mn := tl.foldl min v
      let mx := tl.foldl max v
      if mx = mn then 0 else (b - mn) / (mx - mn)

/-- The `lex_norm` the source actually computes: an item with no BM25
score contributes `raw = 0`, which is still shifted and scaled by the
candidate min and range. -/
def codeLexNorm (rows : List LexRow) (i : Int) : ℚ :=
  match lexCandidateBests rows with
  | [] => 0
  | v :: tl =>
    let mn := tl.foldl min v
    let mx := tl.foldl max v
    let range := if mx ≠ mn then mx - mn else 1
    ((bestLex rows i).getD 0 - mn) / range

/-- The claim's fused score. -/
def claimScore (session_present : Bool) (semRows : List SemSqlRow)
    (lexRows : List LexRow) (i : Int) : ℚ :=
  claimSem session_present semRows i * (3/5) + claimLexNorm lexRows i * (2/5)

/-- The fused score as the source computes it. -/
def codeScore (session_present : Bool) (semRows : List SemSqlRow)
    (lexRows : List LexRow) (i : Int) : ℚ :=
  codeSem session_present semRows i * (3/5) + codeLexNorm lexRows i * (2/5)

/-! ## Connection discovery (`connections.py`) -/

/-- `connections._mean_vector`: elementwise mean (`np.mean(axis=0)`),
empty on no vectors. -/
def mean_vector (vs : List (List ℚ)) : List ℚ :=
  match vs with
  | [] => []
  | v :: _ =>
    (List.range v.length).map
      (fun k => ((vs.map (fun w => w.getD k 0)).sum) / (vs.length : ℚ))

/-- Dot product of two rational vectors (`zip` truncates to the
shorter vector, as in Python). -/
def dotQ (v w : List ℚ) : ℚ := ((v.zip w).map (fun p => p.1 * p.2)).sum

/-- Sum of squares of a vector. -/
def sumSq (v : List ℚ) : ℚ := (v.map (fun a => a * a)).sum

/-- The Euclidean norm (`math.sqrt(sum(a*a))` / `np.linalg.norm`). -/
noncomputable def normR (v : List ℚ) : ℝ := Real.sqrt ((sumSq v : ℚ) : ℝ)

open Classical in
/-- One iteration of the `find_connections` loop: compare the new
item's mean vector against one other item's mean vector and upsert a
connection when the similarity reaches the threshold; zero-norm and
embedding-less items are skipped. -/
noncomputable def findConnectionsStep (round4 : ℝ → ℚ) (threshold : ℝ)
    (mean_new : List ℚ) (item_id : Int) (acc : Nat × Store) (other : Int) :
    Nat × Store :=
  let other_vecs := get_embeddings_for_item acc.2 other
  if other_vecs = [] then acc
  else
    let mean_other := mean_vector other_vecs
    let dot : ℝ := ((dotQ mean_new mean_other : ℚ) : ℝ)
    let norm := normR mean_new * normR mean_other
    if norm = 0 then acc
    else if threshold ≤ dot / norm then
      (acc.1 + 1, insert_connection acc.2 item_id other (round4 (dot / norm)))
    else acc

open Classical in
/-- `connections.find_connections`: compare the item's mean chunk
vector against every other item's, and upsert a connection for every
similarity at or above the threshold (default `CONNECTION_THRESHOLD =
0.75`); zero-norm pairs are skipped.  `round4` abstracts Python's
`round(sim, 4)`. -/
noncomputable def find_connections (round4 : ℝ → ℚ) (st : Store) (item_id : Int)
    (threshold : ℝ := 3/4) : Nat × Store :=
  let vecs := get_embeddings_for_item st item_id
  if vecs = [] then (0, st)
  else
    let mean_new := mean_vector vecs
    let others :=
      ((st.embeddings.filter (fun e => e.item_id ≠ item_id)).map (fun e => e.item_id)).dedup
    others.foldl (findConnectionsStep round4 threshold mean_new item_id) (0, st)

/-! ## Note consolidation (`consolidate.py`) -/

/-- A small note as built by `fetch_small_notes`. -/
structure Note where
  item_id : Int
  text : String
  embedding : List ℚ
  deriving Repr, DecidableEq

/-- `SUM(LENGTH(c.body))` over an item's chunks. -/
def totalBodyLength (st : Store) (item_id : Int) : Nat :=
  ((st.content.filter (fun c => c.item_id = item_id)).map (fun c => c.body.length)).sum

/-- `db.get_chunks_for_item`: an item's chunks ordered by
`chunk_index`. -/
def get_chunks_for_item (st : Store) (item_id : Int) : List ContentRow :=
  List.insertionSort (fun a b => a.chunk_index ≤ b.chunk_index)
    (st.content.filter (fun c => c.item_id = item_id))

/-- `consolidate.fetch_small_notes`: items of `source_type = 'text'`
whose summed chunk length is positive and at most `max_length` (the
SQL `HAVING` clause), kept only when they have at least one embedding,
represented by their first stored embedding. -/
def fetch_small_notes (st : Store) (max_length : Nat) : List Note :=
  let rows := st.items.filter (fun it =>
    it.source_type = "text" ∧ 0 < totalBodyLength st it.id ∧
    totalBodyLength st it.id ≤ max_length)
  rows.filterMap (fun it =>
    let chunks := get_chunks_for_item st it.id
    let full_text := String.intercalate "\n" (chunks.map (fun c => c.body))
    match get_embeddings_for_item st it.id with
    | [] => none
    | e :: _ => some { item_id := it.id, text := full_text, embedding := e })

/-- The set of item ids the claim says consolidation considers:
`source_type = text` and total chunk-body length at most 300 — with no
positivity or embedding requirement. -/
def claimSmallNoteIds (st : Store) (max_length : Nat) : List Int :=
  (st.items.filter (fun it =>
    it.source_type = "text" ∧ totalBodyLength st it.id ≤ max_length)).map (fun it => it.id)

open Classical in
/-- `consolidate.cosine_similarity`: `0.0` when either norm is zero,
else `dot / (norm1 * norm2)`. -/
noncomputable def cosine_similarity (v1 v2 : List ℚ) : ℝ :=
  if normR v1 = 0 ∨ normR v2 = 0 then 0
  else ((dotQ v1 v2 : ℚ) : ℝ) / (normR v1 * normR v2)

open Classical in
/-- The inner loop of `cluster_notes`: the seed absorbs every not yet
visited later note whose cosine similarity to the seed reaches the
threshold, marking it visited. -/
noncomputable def absorbPass (threshold : ℝ) (seed : Note) :
    List Note → List Int → List Note × List Int
  | [], visited => ([], visited)
  | b :: rest, visited =>
    if b.item_id ∈ visited then absorbPass threshold seed rest visited
    else if threshold ≤ cosine_similarity seed.embedding b.embedding then
      let res := absorbPass threshold seed rest (visited ++ [b.item_id])
      (b :: res.1, res.2)
    else absorbPass threshold seed rest visited

open Classical in
/-- The outer loop of `cluster_notes`: every unvisited note seeds one
pass over the later notes; clusters of size 1 are dropped. -/
noncomputable def clusterAux (threshold : ℝ) :
    List Note → List Int → List (List Note)
  | [], _ => []
  | a :: rest, visited =>
    if a.item_id ∈ visited then clusterAux threshold rest visited
    else
      let res := absorbPass threshold a rest (visited ++ [a.item_id])
      let current := a :: res.1
      if 1 < current.length then current :: clusterAux threshold rest res.2
      else clusterAux threshold rest res.2

/-- `consolidate.cluster_notes` (default threshold `0.70`). -/
noncomputable def cluster_notes (notes : List Note)
    (similarity_threshold : ℝ := 7/10) : List (List Note) :=
  clusterAux similarity_threshold notes []

/-- Referential consistency of the `embeddings` table: every embedding
row's denormalised `item_id` agrees with the owner of its chunk.
Every write path (`ingest_file` step 7) inserts embeddings this way. -/
def EmbeddingsConsistent (st : Store) : Prop :=
  ∀ e ∈ st.embeddings, ∃ c ∈ st.content, c.id = e.content_id ∧ c.item_id = e.item_id

/-- A one-item fixture store holding a single small text note with one
chunk and one embedding. -/
def smallNoteStore : Store :=
  { emptyStore with
      items := [{ id := 1, source_path := "a", source_type := "text",
                  file_hash := some "h1" }]
      content := [{ id := 10, item_id := 1, chunk_index := 0, body := "hi" }]
      embeddings := [{ id := 20, content_id := 10, item_id := 1, vector := [1] }] }

/-! # Theorems -/

/-! ## Store-shape helper lemmas -/

theorem create_hnsw_index_items (b : Bool) (s : Store) :
    (create_hnsw_index b s).items = s.items := by
  unfold create_hnsw_index
  split <;> (dsimp only; split <;> rfl)

theorem create_fts_index_items (s : Store) :
    (create_fts_index s).items = s.items := rfl

theorem insertChunkAndEmbedding_items (item_id : Int) (s : Store)
    (icv : Nat × String × List ℚ) :
    (insertChunkAndEmbedding item_id s icv).items = s.items := rfl

theorem foldl_insertChunkAndEmbedding_items (item_id : Int)
    (l : List (Nat × String × List ℚ)) (s : Store) :
    (l.foldl (insertChunkAndEmbedding item_id) s).items = s.items := by
  induction l generalizing s with
  | nil => rfl
  | cons hd tl ih => rw [List.foldl_cons, ih, insertChunkAndEmbedding_items]

/-! ## C5 — self-healing embedding insertion -/

/-- C5: when the raw embedding insert raises a duplicate-key /
constraint / HNSW error, `insert_embedding` force-rebuilds the vector
index (one more index creation) and retries the insert exactly once,
the retry's outcome — success or error — being final; a
non-index-corruption error propagates unchanged, and a clean first
attempt inserts directly. -/
theorem insert_embedding_self_healing (a2 : SqlOutcome) (st : Store)
    (content_id item_id : Int) (v : List ℚ) :
    (insert_embedding .ok a2 st content_id item_id v =
      .ok (insert_embedding_row st content_id item_id v)) ∧
    (∀ e, isIndexCorruptionError e = true →
      (create_hnsw_index true st).hnsw_creates = st.hnsw_creates + 1 ∧
      insert_embedding (.raised e) a2 st content_id item_id v =
        (match a2 with
         | .ok => .ok (insert_embedding_row (create_hnsw_index true st) content_id item_id v)
         | .raised e2 => .error e2)) ∧
    (∀ e, isIndexCorruptionError e = false →
      insert_embedding (.raised e) a2 st content_id item_id v = .error e) := by
  refine ⟨rfl, fun e he => ⟨rfl, ?_⟩, fun e he => ?_⟩
  · simp only [insert_embedding, he, if_true]
  · simp [insert_embedding, he]

/-- C5 witness: a concrete HNSW error triggers the rebuild-and-retry
path, and a concrete unrelated error propagates. -/
theorem insert_embedding_self_healing_witness :
    ((create_hnsw_index true emptyStore).hnsw_creates = emptyStore.hnsw_creates + 1 ∧
     insert_embedding (.raised "HNSW index corrupt") .ok emptyStore 1 1 [1] =
       .ok (insert_embedding_row (create_hnsw_index true emptyStore) 1 1 [1])) ∧
    insert_embedding (.raised "connection closed") .ok emptyStore 1 1 [1] =
      .error "connection closed" := by
  exact ⟨(insert_embedding_self_healing .ok emptyStore 1 1 [1]).2.1
          "HNSW index corrupt" (by decide),
         (insert_embedding_self_healing .ok emptyStore 1 1 [1]).2.2
          "connection closed" (by decide)⟩

/-! ## C7 — MIME acceptance in `ingest_file` -/

/-- C7 counterexample: a file whose path-suffix MIME type is
`audio/mpeg` is rejected with the unsupported-type error, although the
claim says `audio/*` is accepted. -/
theorem ingest_file_rejects_audio :
    detect_mime { path := "song.mp3", present := true, md5 := "h1",
                  mimeGuess := some "audio/mpeg", mtime := 0 } = "audio/mpeg" ∧
    strStartsWith "audio/mpeg" "audio/" = true ∧
    ingest_file (fun t => [t]) (fun c => c.map (fun _ => [(1 : ℚ)]))
      (fun _ s => s) (fun _ s => s)
      { path := "song.mp3", present := true, md5 := "h1",
        mimeGuess := some "audio/mpeg", mtime := 0 }
      "hello" true emptyStore =
      (.error (.unsupportedType "audio/mpeg"), emptyStore) := by
  refine ⟨rfl, by decide, ?_⟩
  unfold ingest_file
  decide

/-- C7 (amended): for a present, non-duplicate file, `ingest_file`
raises the unsupported-type error — before any chunking or embedding,
leaving the store untouched, whatever the splitter and embedder do —
exactly when the path-suffix MIME type is not `text/*`, `image/*` or
`application/pdf`; in particular `audio/*` is rejected. -/
theorem ingest_file_mime_gate (split : String → List String)
    (embed : List String → List (List ℚ))
    (enrich connect : Int → Store → Store)
    (f : FileInfo) (text : String) (rebuild : Bool) (st : Store)
    (hpresent : f.present = true)
    (hnodup : get_item_by_hash st f.md5 = none) :
    (mimeAccepted (detect_mime f) = false →
      ingest_file split embed enrich connect f text rebuild st =
        (.error (.unsupportedType (detect_mime f)), st)) ∧
    (mimeAccepted (detect_mime f) = true →
      ∀ m, (ingest_file split embed enrich connect f text rebuild st).1 ≠
        .error (.unsupportedType m)) := by
  constructor
  · intro h
    simp [ingest_file, hpresent, hnodup, h]
  · intro h m
    by_cases hb : isBlankText text = true
    · simp [ingest_file, hpresent, hnodup, h, hb]
    · simp [ingest_file, hpresent, hnodup, h, hb]

/-- C7 witness: a `.zip` suffix (MIME `application/zip`) is rejected
with the store unchanged, while an accepted `application/pdf` file is
never rejected for its type. -/
theorem ingest_file_mime_gate_witness :
    ingest_file (fun t => [t]) (fun c => c.map (fun _ => [(1 : ℚ)]))
      (fun _ s => s) (fun _ s => s)
      { path := "a.zip", present := true, md5 := "h2",
        mimeGuess := some "application/zip", mtime := 0 }
      "hi" true emptyStore = (.error (.unsupportedType "application/zip"), emptyStore) ∧
    (ingest_file (fun t => [t]) (fun c => c.map (fun _ => [(1 : ℚ)]))
      (fun _ s => s) (fun _ s => s)
      { path := "a.pdf", present := true, md5 := "h3",
        mimeGuess := some "application/pdf", mtime := 0 }
      "hi" true emptyStore).1 ≠ .error (.unsupportedType "application/pdf") := by
  constructor
  · exact (ingest_file_mime_gate (fun t => [t]) (fun c => c.map (fun _ => [(1 : ℚ)]))
      (fun _ s => s) (fun _ s => s)
      { path := "a.zip", present := true, md5 := "h2",
        mimeGuess := some "application/zip", mtime := 0 }
      "hi" true emptyStore rfl rfl).1 (by decide)
  · exact (ingest_file_mime_gate (fun t => [t]) (fun c => c.map (fun _ => [(1 : ℚ)]))
      (fun _ s => s) (fun _ s => s)
      { path := "a.pdf", present := true, md5 := "h3",
        mimeGuess := some "application/pdf", mtime := 0 }
      "hi" true emptyStore rfl rfl).2 (by decide) "application/pdf"

/-! ## C1 — idempotent deduplication -/

theorem get_item_by_hash_congr {s1 s2 : Store} (h : s1.items = s2.items)
    (hash : String) : get_item_by_hash s1 hash = get_item_by_hash s2 hash := by
  unfold get_item_by_hash
  rw [h]

/-- A successful `ingest_file` leaves the ingested hash findable, with
the new item's id, provided enrichment and connection discovery
preserve hash lookups (they only update enrichment columns and
connections). -/
theorem ingest_file_ok_hash (split : String → List String)
    (embed : List String → List (List ℚ))
    (enrich connect : Int → Store → Store)
    (henrich : ∀ i s h, (get_item_by_hash (enrich i s) h).map ItemRow.id =
      (get_item_by_hash s h).map ItemRow.id)
    (hconnect : ∀ i s h, (get_item_by_hash (connect i s) h).map ItemRow.id =
      (get_item_by_hash s h).map ItemRow.id)
    (f : FileInfo) (text : String) (rebuild : Bool) (st : Store)
    (item_id : Int) (st' : Store)
    (hok : ingest_file split embed enrich connect f text rebuild st = (.ok item_id, st')) :
    (get_item_by_hash st' f.md5).map ItemRow.id = some item_id := by
  by_cases hp : f.present = true
  case neg =>
    have hp' : f.present = false := by
      cases hpv : f.present
      · rfl
      · exact absurd hpv hp
    simp [ingest_file, hp'] at hok
  case pos =>
    cases hfind : get_item_by_hash st f.md5 with
    | some ex => simp [ingest_file, hp, hfind] at hok
    | none =>
      by_cases hm : mimeAccepted (detect_mime f) = true
      case neg =>
        simp [ingest_file, hp, hfind, hm] at hok
      case pos =>
        by_cases hb : isBlankText text = true
        case pos => simp [ingest_file, hp, hfind, hm, hb] at hok
        case neg =>
          simp only [ingest_file, hp, hfind, hm, hb, Bool.true_eq_false,
            if_false, not_true_eq_false, Bool.false_eq_true, if_true, not_false_eq_true,
            Prod.mk.injEq, Except.ok.injEq] at hok
          obtain ⟨hid, hst⟩ := hok
          subst hst
          rw [hconnect, henrich]
          have hitems :
              ((if rebuild = true then
                  create_fts_index (create_hnsw_index false
                    (List.foldl (insertChunkAndEmbedding
                        (insert_item st f.path
                          (if detect_mime f = "application/pdf" then "pdf"
                           else if strStartsWith (detect_mime f) "image/" = true then "image"
                           else "text") (some f.md5) (some f.mtime)).1)
                      (insert_item st f.path
                          (if detect_mime f = "application/pdf" then "pdf"
                           else if strStartsWith (detect_mime f) "image/" = true then "image"
                           else "text") (some f.md5) (some f.mtime)).2
                      ((split text).zip (embed (split text))).enum))
                else
                  List.foldl (insertChunkAndEmbedding
                      (insert_item st f.path
                          (if detect_mime f = "application/pdf" then "pdf"
                           else if strStartsWith (detect_mime f) "image/" = true then "image"
                           else "text") (some f.md5) (some f.mtime)).1)
                    (insert_item st f.path
                        (if detect_mime f = "application/pdf" then "pdf"
                         else if strStartsWith (detect_mime f) "image/" = true then "image"
                         else "text") (some f.md5) (some f.mtime)).2
                    ((split text).zip (embed (split text))).enum) : Store).items =
              (insert_item st f.path
                  (if detect_mime f = "application/pdf" then "pdf"
                   else if strStartsWith (detect_mime f) "image/" = true then "image"
                   else "text") (some f.md5) (some f.mtime)).2.items := by
            split
            · rw [create_fts_index_items, create_hnsw_index_items,
                foldl_insertChunkAndEmbedding_items]
            · rw [foldl_insertChunkAndEmbedding_items]
          rw [get_item_by_hash_congr hitems]
          unfold get_item_by_hash at hfind ⊢
          unfold insert_item
          simp only [List.find?_append, hfind, Option.none_or]
          simp [← hid]
          rfl

/-- C1: when a file's MD5 hash already equals that of a stored item,
`ingest_file` raises the duplicate error carrying the existing item's
id and leaves the store unchanged (no new item); and after a
successful ingestion, ingesting byte-identical content again fails in
exactly that way against the item the first call created — successive
ingestions of one hash produce at most one item.  Enrichment and
connection discovery are assumed to preserve hash lookups, which the
source's implementations do (they only update enrichment columns and
connections). -/
theorem ingest_file_duplicate_dedup (split : String → List String)
    (embed : List String → List (List ℚ))
    (enrich connect : Int → Store → Store)
    (henrich : ∀ i s h, (get_item_by_hash (enrich i s) h).map ItemRow.id =
      (get_item_by_hash s h).map ItemRow.id)
    (hconnect : ∀ i s h, (get_item_by_hash (connect i s) h).map ItemRow.id =
      (get_item_by_hash s h).map ItemRow.id)
    (f : FileInfo) (text : String) (rebuild : Bool) (st : Store)
    (hpresent : f.present = true) :
    (∀ ex, get_item_by_hash st f.md5 = some ex →
      ingest_file split embed enrich connect f text rebuild st =
        (.error (.duplicate ("Duplicate detected: " ++ f.path) ex.id), st)) ∧
    (∀ item_id st',
      ingest_file split embed enrich connect f text rebuild st = (.ok item_id, st') →
      ∀ (f2 : FileInfo) (text2 : String) (rebuild2 : Bool),
        f2.present = true → f2.md5 = f.md5 →
        ingest_file split embed enrich connect f2 text2 rebuild2 st' =
          (.error (.duplicate ("Duplicate detected: " ++ f2.path) item_id), st')) := by
  constructor
  · intro ex hex
    simp [ingest_file, hpresent, hex]
  · intro item_id st' hok f2 text2 rebuild2 h2p h2h
    have hhash := ingest_file_ok_hash split embed enrich connect henrich hconnect
      f text rebuild st item_id st' hok
    rw [← h2h] at hhash
    obtain ⟨ex2, hex2, hid2⟩ := Option.map_eq_some'.mp hhash
    simp [ingest_file, h2p, hex2, hid2]

/-- C1 witness: against a store already holding item 7 with hash
`h1`, ingesting a file with hash `h1` raises the duplicate error with
id 7 and changes nothing. -/
theorem ingest_file_duplicate_dedup_witness :
    ingest_file (fun t => [t]) (fun c => c.map (fun _ => [(1 : ℚ)]))
      (fun _ s => s) (fun _ s => s)
      { path := "b.txt", present := true, md5 := "h1",
        mimeGuess := some "text/plain", mtime := 0 }
      "hello" true
      { emptyStore with items := [{ id := 7, source_path := "a.txt",
                                    source_type := "text", file_hash := some "h1" }] } =
      (.error (.duplicate "Duplicate detected: b.txt" 7),
       { emptyStore with items := [{ id := 7, source_path := "a.txt",
                                     source_type := "text", file_hash := some "h1" }] }) := by
  exact (ingest_file_duplicate_dedup (fun t => [t]) (fun c => c.map (fun _ => [(1 : ℚ)]))
      (fun _ s => s) (fun _ s => s) (fun _ _ _ => rfl) (fun _ _ _ => rfl)
      { path := "b.txt", present := true, md5 := "h1",
        mimeGuess := some "text/plain", mtime := 0 }
      "hello" true
      { emptyStore with items := [{ id := 7, source_path := "a.txt",
                                    source_type := "text", file_hash := some "h1" }] }
      rfl).1
    { id := 7, source_path := "a.txt", source_type := "text", file_hash := some "h1" }
    (by decide)

/-! ## C2 — cascade completeness of `delete_item` -/

/-- C2: on a consistent store, once `delete_item X` returns true no
row of `session_history`, `item_embeddings`, `connections`,
`embeddings`, `chunk_metadata` or `content` references `X` (chunk
metadata referencing `X` through a chunk of `X`), the item row itself
is gone, and both indexes have been rebuilt exactly once afterwards.
The deletion order — session views, item embedding, connections,
embeddings by chunk id, chunk metadata, chunks, item — is the order of
the statement sequence embodied in `delete_item`. -/
theorem delete_item_cascade (st : Store) (X : Int)
    (hcons : EmbeddingsConsistent st) (st' : Store)
    (hdel : delete_item st X = (true, st')) :
    (∀ r ∈ st'.session_history, r.item_id ≠ X) ∧
    (∀ r ∈ st'.item_embeddings, r.item_id ≠ X) ∧
    (∀ r ∈ st'.connections, r.item_a ≠ X ∧ r.item_b ≠ X) ∧
    (∀ e ∈ st'.embeddings, e.item_id ≠ X) ∧
    (∀ m ∈ st'.chunk_metadata, ∀ c ∈ st.content, c.id = m.content_id → c.item_id ≠ X) ∧
    (∀ c ∈ st'.content, c.item_id ≠ X) ∧
    (∀ it ∈ st'.items, it.id ≠ X) ∧
    st'.hnsw_creates = st.hnsw_creates + 1 ∧
    st'.fts_creates = st.fts_creates + 1 := by
  by_cases hA : (st.items.any (fun it => it.id = X)) = true
  case neg =>
    simp only [delete_item, deleteSessionRows, deleteItemEmbeddingRows,
      deleteConnectionRows, deleteEmbeddingRowsByContent,
      deleteChunkMetadataRowsByContent, deleteContentRows, deleteItemRow,
      contentIdsOf] at hdel
    rw [if_neg (by simpa using hA)] at hdel
    exact absurd (congrArg Prod.fst hdel).symm (by simpa using hA)
  case pos =>
    simp only [delete_item, deleteSessionRows, deleteItemEmbeddingRows,
      deleteConnectionRows, deleteEmbeddingRowsByContent,
      deleteChunkMetadataRowsByContent, deleteContentRows, deleteItemRow,
      contentIdsOf] at hdel
    rw [if_pos (by simpa using hA)] at hdel
    have hst : st' = create_fts_index (create_hnsw_index true
        { st with
          session_history := st.session_history.filter (fun r => r.item_id ≠ X)
          item_embeddings := st.item_embeddings.filter (fun r => r.item_id ≠ X)
          connections := st.connections.filter (fun r => ¬(r.item_a = X ∨ r.item_b = X))
          embeddings := st.embeddings.filter (fun e =>
            e.content_id ∉ ((st.content.filter (fun c => c.item_id = X)).map (fun c => c.id)))
          chunk_metadata := st.chunk_metadata.filter (fun m =>
            m.content_id ∉ ((st.content.filter (fun c => c.item_id = X)).map (fun c => c.id)))
          content := st.content.filter (fun c => c.item_id ≠ X)
          items := st.items.filter (fun it => it.id ≠ X) }) := by
      exact (congrArg Prod.snd hdel).symm
    subst hst
    simp only [create_fts_index, create_hnsw_index]
    refine ⟨?_, ?_, ?_, ?_, ?_, ?_, ?_, ?_, ?_⟩
    · intro r hr
      simp at hr
      exact hr.2
    · intro r hr
      simp at hr
      exact hr.2
    · intro r hr
      simp at hr
      exact ⟨hr.2.1, hr.2.2⟩
    · intro e he
      simp at he
      intro hX
      obtain ⟨c, hc, hcid, hcitem⟩ := hcons e he.1
      exact he.2 c hc (by rw [hcitem, hX]) hcid
    · intro m hm c hc hcid
      simp at hm
      intro hX
      exact hm.2 c hc hX hcid
    · intro c hc
      simp at hc
      exact hc.2
    · intro it hit
      simp at hit
      exact hit.2
    · simp
    · simp

/-- C2 witness: deleting item 1 from a two-item store with chunks,
embeddings, metadata, a connection and a session view rebuilds both
indexes once. -/
theorem delete_item_cascade_witness :
    ({ emptyStore with
        items := [{ id := 2, source_path := "b", source_type := "text",
                    file_hash := some "h2" }]
        content := [{ id := 11, item_id := 2, chunk_index := 0, body := "y" }]
        embeddings := [{ id := 21, content_id := 11, item_id := 2, vector := [2] }]
        hnsw_live := true, hnsw_creates := 1, fts_creates := 1 } : Store).hnsw_creates =
      ({ emptyStore with
          items := [{ id := 1, source_path := "a", source_type := "text",
                      file_hash := some "h1" },
                    { id := 2, source_path := "b", source_type := "text",
                      file_hash := some "h2" }]
          content := [{ id := 10, item_id := 1, chunk_index := 0, body := "x" },
                      { id := 11, item_id := 2, chunk_index := 0, body := "y" }]
          embeddings := [{ id := 20, content_id := 10, item_id := 1, vector := [1] },
                         { id := 21, content_id := 11, item_id := 2, vector := [2] }]
          item_embeddings := [{ item_id := 1, metadata_vector := [1] }]
          chunk_metadata := [{ id := 30, content_id := 10 }]
          connections := [{ item_a := 1, item_b := 2, score := 1 }]
          session_history := [{ id := 40, item_id := 1 }] } : Store).hnsw_creates + 1 := by
  exact (delete_item_cascade
    { emptyStore with
        items := [{ id := 1, source_path := "a", source_type := "text",
                    file_hash := some "h1" },
                  { id := 2, source_path := "b", source_type := "text",
                    file_hash := some "h2" }]
        content := [{ id := 10, item_id := 1, chunk_index := 0, body := "x" },
                    { id := 11, item_id := 2, chunk_index := 0, body := "y" }]
        embeddings := [{ id := 20, content_id := 10, item_id := 1, vector := [1] },
                       { id := 21, content_id := 11, item_id := 2, vector := [2] }]
        item_embeddings := [{ item_id := 1, metadata_vector := [1] }]
        chunk_metadata := [{ id := 30, content_id := 10 }]
        connections := [{ item_a := 1, item_b := 2, score := 1 }]
        session_history := [{ id := 40, item_id := 1 }] }
    1 (by unfold EmbeddingsConsistent; decide)
    { emptyStore with
        items := [{ id := 2, source_path := "b", source_type := "text",
                    file_hash := some "h2" }]
        content := [{ id := 11, item_id := 2, chunk_index := 0, body := "y" }]
        embeddings := [{ id := 21, content_id := 11, item_id := 2, vector := [2] }]
        hnsw_live := true, hnsw_creates := 1, fts_creates := 1 }
    (by decide)).2.2.2.2.2.2.2.1

/-! ## C6 — batch drain, failure isolation, deferred rebuild -/

theorem safe_ingest_path (split : String → List String)
    (embed : List String → List (List ℚ))
    (enrich connect : Int → Store → Store) (job : Job) (s : Store) :
    (safe_ingest split embed enrich connect job s).1.path = job.path := by
  cases hext : job.extracted with
  | error e => simp [safe_ingest, hext]
  | ok text =>
    simp only [safe_ingest, hext]
    rcases hres : ingest_file split embed enrich connect job.file text false s with ⟨out, st1⟩
    cases out with
    | ok id => rfl
    | error err => cases err <;> rfl

theorem drain_foldl_paths (split : String → List String)
    (embed : List String → List (List ℚ))
    (enrich connect : Int → Store → Store) (jobs : List Job)
    (acc : List IngestResult) (st : Store) :
    ((jobs.foldl (drainStep split embed enrich connect) (acc, st)).1).map
        (fun r => r.path) =
      acc.map (fun r => r.path) ++ jobs.map (fun j => j.path) := by
  induction jobs generalizing acc st with
  | nil => simp
  | cons hd tl ih =>
    rw [List.foldl_cons]
    have hstep : drainStep split embed enrich connect (acc, st) hd =
        (acc ++ [(safe_ingest split embed enrich connect hd st).1],
         (safe_ingest split embed enrich connect hd st).2) := rfl
    rw [hstep, ih]
    simp [safe_ingest_path]

/-- C6 counterexample: a worker whose `ingest_file` raises
`DuplicateError` does not produce a failed result — `drain` reports it
with `success = true` (and the duplicate id), refuting "an exception
inside one worker is captured as a failed result (success=false)". -/
theorem drain_duplicate_worker_not_failed :
    (drain (fun t => [t]) (fun c => c.map (fun _ => [(1 : ℚ)]))
      (fun _ s => s) (fun _ s => s)
      [{ path := "b.txt",
         file := { path := "b.txt", present := true, md5 := "h1",
                   mimeGuess := some "text/plain", mtime := 0 },
         extracted := .ok "hello" }] true
      { emptyStore with items := [{ id := 7, source_path := "a.txt",
                                    source_type := "text", file_hash := some "h1" }] }).1 =
      [{ path := "b.txt", success := true, is_duplicate := true,
         duplicate_id := some 7 }] ∧
    (ingest_file (fun t => [t]) (fun c => c.map (fun _ => [(1 : ℚ)]))
      (fun _ s => s) (fun _ s => s)
      { path := "b.txt", present := true, md5 := "h1",
        mimeGuess := some "text/plain", mtime := 0 }
      "hello" false
      { emptyStore with items := [{ id := 7, source_path := "a.txt",
                                    source_type := "text", file_hash := some "h1" }] }).1 =
      .error (.duplicate "Duplicate detected: b.txt" 7) := by
  constructor
  · decide
  · decide

/-- C6 (amended): `drain` returns exactly one result per submission,
in submission order, and the result list is the same whether or not
the post-batch index rebuild succeeds (a rebuild failure never reaches
the caller); a worker whose extraction or ingestion raises a
non-duplicate exception yields `success = false` with the error
message — peers unaffected — while a `DuplicateError` yields a
successful duplicate record. -/
theorem drain_isolation (split : String → List String)
    (embed : List String → List (List ℚ))
    (enrich connect : Int → Store → Store) (jobs : List Job) (st : Store) :
    (∀ rb, ((drain split embed enrich connect jobs rb st).1).map (fun r => r.path) =
      jobs.map (fun j => j.path)) ∧
    ((drain split embed enrich connect jobs true st).1 =
      (drain split embed enrich connect jobs false st).1) ∧
    (∀ (job : Job) (s : Store) e, job.extracted = .error e →
      safe_ingest split embed enrich connect job s =
        ({ path := job.path, success := false, error := some e }, s)) ∧
    (∀ (job : Job) (s : Store) text msg eid st1, job.extracted = .ok text →
      ingest_file split embed enrich connect job.file text false s =
        (.error (.duplicate msg eid), st1) →
      safe_ingest split embed enrich connect job s =
        ({ path := job.path, success := true, is_duplicate := true,
           duplicate_id := some eid }, st1)) ∧
    (∀ (job : Job) (s : Store) text err st1, job.extracted = .ok text →
      ingest_file split embed enrich connect job.file text false s = (.error err, st1) →
      (∀ msg eid, err ≠ .duplicate msg eid) →
      safe_ingest split embed enrich connect job s =
        ({ path := job.path, success := false, error := some err.message }, st1)) := by
  refine ⟨?_, rfl, ?_, ?_, ?_⟩
  · intro rb
    unfold drain
    have := drain_foldl_paths split embed enrich connect jobs [] st
    simpa using this
  · intro job s e hext
    simp [safe_ingest, hext]
  · intro job s text msg eid st1 hext hres
    simp [safe_ingest, hext, hres]
  · intro job s text err st1 hext hres hnd
    cases err with
    | duplicate m i => exact absurd rfl (hnd m i)
    | fileNotFound p => simp [safe_ingest, hext, hres]
    | unsupportedType m => simp [safe_ingest, hext, hres]
    | emptyContent => simp [safe_ingest, hext, hres]

/-- C6 witness: a worker whose extraction raises is reported failed
with the message, against a concrete empty store. -/
theorem drain_isolation_witness :
    safe_ingest (fun t => [t]) (fun c => c.map (fun _ => [(1 : ℚ)]))
      (fun _ s => s) (fun _ s => s)
      { path := "c.txt",
        file := { path := "c.txt", present := true, md5 := "h9",
                  mimeGuess := some "text/plain", mtime := 0 },
        extracted := .error "boom" }
      emptyStore =
      ({ path := "c.txt", success := false, error := some "boom" }, emptyStore) := by
  exact (drain_isolation (fun t => [t]) (fun c => c.map (fun _ => [(1 : ℚ)]))
    (fun _ s => s) (fun _ s => s) [] emptyStore).2.2.1
    { path := "c.txt",
      file := { path := "c.txt", present := true, md5 := "h9",
                mimeGuess := some "text/plain", mtime := 0 },
      extracted := .error "boom" }
    emptyStore "boom" rfl

/-! ## C8 — connection canonical ordering and upsert -/

theorem insert_connection_preserves_lt (st : Store) (a b : Int) (s : ℚ)
    (hinv : ∀ r ∈ st.connections, r.item_a < r.item_b) (hab : a ≠ b) :
    ∀ r ∈ (insert_connection st a b s).connections, r.item_a < r.item_b := by
  intro r hr
  unfold insert_connection at hr
  dsimp only at hr
  split at hr
  · simp only [List.mem_map] at hr
    obtain ⟨r0, hr0, heq⟩ := hr
    by_cases hc : r0.item_a = min a b ∧ r0.item_b = max a b
    · rw [if_pos hc] at heq
      subst heq
      exact hinv r0 hr0
    · rw [if_neg hc] at heq
      subst heq
      exact hinv r0 hr0
  · simp only [List.mem_append, List.mem_singleton] at hr
    rcases hr with hold | hnew
    · exact hinv r hold
    · subst hnew
      exact min_lt_max.mpr hab

theorem findConnectionsStep_preserves_lt (round4 : ℝ → ℚ) (threshold : ℝ)
    (mean_new : List ℚ) (item_id : Int) (acc : Nat × Store) (other : Int)
    (hother : other ≠ item_id)
    (hinv : ∀ r ∈ acc.2.connections, r.item_a < r.item_b) :
    ∀ r ∈ (findConnectionsStep round4 threshold mean_new item_id acc other).2.connections,
      r.item_a < r.item_b := by
  unfold findConnectionsStep
  dsimp only
  split
  · exact hinv
  · split
    · exact hinv
    · split
      · exact insert_connection_preserves_lt acc.2 item_id other _ hinv
          (fun h => hother h.symm)
      · exact hinv

theorem findConnections_others_ne (st : Store) (item_id : Int) :
    ∀ o ∈ ((st.embeddings.filter (fun e => e.item_id ≠ item_id)).map
      (fun e => e.item_id)).dedup, o ≠ item_id := by
  intro o ho
  rw [List.mem_dedup, List.mem_map] at ho
  obtain ⟨e, he, heq⟩ := ho
  rw [List.mem_filter] at he
  subst heq
  simpa using he.2

/-- C8 counterexample: `insert_connection` called with equal item ids
persists a self-referential connection row violating
`item_a < item_b`. -/
theorem insert_connection_self_loop :
    (insert_connection emptyStore 1 1 1).connections =
      [{ item_a := 1, item_b := 1, score := 1 }] ∧
    ¬ (∀ r ∈ (insert_connection emptyStore 1 1 1).connections,
        r.item_a < r.item_b ∧ r.item_a ≠ r.item_b) := by
  constructor
  · decide
  · decide

/-- C8 (amended): `insert_connection` canonicalises the pair to
`(min, max)` — strictly ordered whenever the two ids differ — and
upserts: a missing key is appended, a present key has its score
overwritten in place (last write wins); every persisted row either
keeps the key of a pre-existing row or is strictly ordered.  When
every pre-existing connection is strictly ordered, the invariant is
preserved by `insert_connection` on distinct ids, and by
`find_connections`, whose candidate items are always distinct from the
source item — so discovered connections are never self-referential. -/
theorem connection_canonical_upsert (st : Store) (a b : Int) (s : ℚ) :
    ((st.connections.find? (fun r => r.item_a = min a b ∧ r.item_b = max a b)).isSome
        = false →
      (insert_connection st a b s).connections =
        st.connections ++ [{ item_a := min a b, item_b := max a b, score := s }]) ∧
    ((st.connections.find? (fun r => r.item_a = min a b ∧ r.item_b = max a b)).isSome
        = true →
      (insert_connection st a b s).connections =
        st.connections.map (fun r =>
          if r.item_a = min a b ∧ r.item_b = max a b then { r with score := s } else r)) ∧
    (∀ r ∈ (insert_connection st a b s).connections,
      (∃ r0 ∈ st.connections, r.item_a = r0.item_a ∧ r.item_b = r0.item_b) ∨
        (r.item_a ≤ r.item_b ∧ (a ≠ b → r.item_a < r.item_b))) ∧
    ((∀ r ∈ st.connections, r.item_a < r.item_b) → a ≠ b →
      ∀ r ∈ (insert_connection st a b s).connections,
        r.item_a < r.item_b ∧ r.item_a ≠ r.item_b) ∧
    ((∀ r ∈ st.connections, r.item_a < r.item_b) →
      ∀ round4 item_id threshold,
        ∀ r ∈ (find_connections round4 st item_id threshold).2.connections,
          r.item_a < r.item_b ∧ r.item_a ≠ r.item_b) := by
  refine ⟨?_, ?_, ?_, ?_, ?_⟩
  · intro h
    simp only [insert_connection, h, Bool.false_eq_true, if_false]
  · intro h
    simp only [insert_connection, h, if_true]
  · intro r hr
    unfold insert_connection at hr
    dsimp only at hr
    split at hr
    · simp only [List.mem_map] at hr
      obtain ⟨r0, hr0, heq⟩ := hr
      left
      refine ⟨r0, hr0, ?_⟩
      by_cases hc : r0.item_a = min a b ∧ r0.item_b = max a b
      · rw [if_pos hc] at heq
        subst heq
        exact ⟨rfl, rfl⟩
      · rw [if_neg hc] at heq
        subst heq
        exact ⟨rfl, rfl⟩
    · simp only [List.mem_append, List.mem_singleton] at hr
      rcases hr with hold | hnew
      · exact Or.inl ⟨r, hold, rfl, rfl⟩
      · subst hnew
        exact Or.inr ⟨min_le_max, fun hab => min_lt_max.mpr hab⟩
  · intro hinv hab r hr
    have := insert_connection_preserves_lt st a b s hinv hab r hr
    exact ⟨this, ne_of_lt this⟩
  · intro hinv round4 item_id threshold r hr
    unfold find_connections at hr
    dsimp only at hr
    split at hr
    · exact ⟨hinv r hr, ne_of_lt (hinv r hr)⟩
    · have hfold : ∀ (others : List Int), (∀ o ∈ others, o ≠ item_id) →
          ∀ (acc : Nat × Store), (∀ r0 ∈ acc.2.connections, r0.item_a < r0.item_b) →
          ∀ r0 ∈ (others.foldl (findConnectionsStep round4 threshold
            (mean_vector (get_embeddings_for_item st item_id)) item_id) acc).2.connections,
            r0.item_a < r0.item_b := by
        intro others
        induction others with
        | nil => intro _ acc hacc; exact hacc
        | cons hd tl ih =>
          intro hne acc hacc
          rw [List.foldl_cons]
          exact ih (fun o ho => hne o (List.mem_cons_of_mem hd ho))
            _ (findConnectionsStep_preserves_lt round4 threshold _ item_id acc hd
                (hne hd (List.mem_cons_self hd tl)) hacc)
      have hlt := hfold _ (findConnections_others_ne st item_id) (0, st) hinv r hr
      exact ⟨hlt, ne_of_lt hlt⟩

/-- C8 witness: inserting the pair `(2, 1)` into an empty store
appends the single canonically ordered row `(1, 2)`. -/
theorem connection_canonical_upsert_witness :
    (insert_connection emptyStore 2 1 1).connections =
      emptyStore.connections ++
        [{ item_a := min 2 1, item_b := max 2 1, score := 1 }] := by
  exact (connection_canonical_upsert emptyStore 2 1 1).1 (by decide)

/-! ## Cosine similarity and clustering lemmas (C9, C10) -/

theorem dotQ_comm (v w : List ℚ) : dotQ v w = dotQ w v := by
  induction v generalizing w with
  | nil => cases w <;> simp [dotQ]
  | cons a v ih =>
    cases w with
    | nil => simp [dotQ]
    | cons b w =>
      show a * b + dotQ v w = b * a + dotQ w v
      rw [mul_comm a b, ih]

theorem cosine_similarity_zero_left (v1 v2 : List ℚ) (h : normR v1 = 0 ∨ normR v2 = 0) :
    cosine_similarity v1 v2 = 0 := by
  unfold cosine_similarity
  rw [if_pos h]

theorem cosine_similarity_comm_all (v1 v2 : List ℚ) :
    cosine_similarity v1 v2 = cosine_similarity v2 v1 := by
  unfold cosine_similarity
  by_cases h : normR v1 = 0 ∨ normR v2 = 0
  · rw [if_pos h, if_pos h.symm]
  · rw [if_neg h, if_neg (fun hc => h hc.symm)]
    rw [dotQ_comm, mul_comm]

theorem absorbPass_mem (thr : ℝ) (seed : Note) :
    ∀ (rest : List Note) (visited : List Int) (b : Note),
      b ∈ (absorbPass thr seed rest visited).1 →
      b ∈ rest ∧ thr ≤ cosine_similarity seed.embedding b.embedding := by
  intro rest
  induction rest with
  | nil =>
    intro visited b hb
    simp [absorbPass] at hb
  | cons hd tl ih =>
    intro visited b hb
    unfold absorbPass at hb
    split at hb
    · have h := ih _ b hb
      exact ⟨List.mem_cons_of_mem hd h.1, h.2⟩
    · rename_i hsim
      split at hb
      · rename_i habs
        dsimp only at hb
        rcases List.mem_cons.mp hb with hb1 | hb2
        · rw [hb1]
          exact ⟨List.mem_cons_self hd tl, habs⟩
        · have h := ih _ b hb2
          exact ⟨List.mem_cons_of_mem hd h.1, h.2⟩
      · have h := ih _ b hb
        exact ⟨List.mem_cons_of_mem hd h.1, h.2⟩

theorem clusterAux_mem (thr : ℝ) :
    ∀ (notes : List Note) (visited : List Int) (cl : List Note),
      cl ∈ clusterAux thr notes visited →
      1 < cl.length ∧ ∃ seed tail, cl = seed :: tail ∧ seed ∈ notes ∧
        tail ≠ [] ∧ (∀ b ∈ tail, b ∈ notes ∧
          thr ≤ cosine_similarity seed.embedding b.embedding) := by
  intro notes
  induction notes with
  | nil =>
    intro visited cl h
    simp [clusterAux] at h
  | cons a tl ih =>
    intro visited cl h
    unfold clusterAux at h
    split at h
    · have := ih _ cl h
      obtain ⟨hlen, seed, tail, hcl, hseed, hne, htail⟩ := this
      exact ⟨hlen, seed, tail, hcl, List.mem_cons_of_mem a hseed, hne,
        fun b hb => ⟨List.mem_cons_of_mem a (htail b hb).1, (htail b hb).2⟩⟩
    · dsimp only at h
      split at h
      · rename_i hlen
        rcases List.mem_cons.mp h with rfl | h2
        · refine ⟨hlen, a, (absorbPass thr a tl (visited ++ [a.item_id])).1, rfl,
            List.mem_cons_self a tl, ?_, ?_⟩
          · intro hemp
            rw [hemp] at hlen
            simp at hlen
          · intro b hb
            have hmem := absorbPass_mem thr a tl _ b hb
            exact ⟨List.mem_cons_of_mem a hmem.1, hmem.2⟩
        · have := ih _ cl h2
          obtain ⟨hlen2, seed, tail, hcl, hseed, hne, htail⟩ := this
          exact ⟨hlen2, seed, tail, hcl, List.mem_cons_of_mem a hseed, hne,
            fun b hb => ⟨List.mem_cons_of_mem a (htail b hb).1, (htail b hb).2⟩⟩
      · have := ih _ cl h
        obtain ⟨hlen2, seed, tail, hcl, hseed, hne, htail⟩ := this
        exact ⟨hlen2, seed, tail, hcl, List.mem_cons_of_mem a hseed, hne,
          fun b hb => ⟨List.mem_cons_of_mem a (htail b hb).1, (htail b hb).2⟩⟩

/-! ## C10 — cosine similarity: symmetry and zero-norm safety -/

/-- C10: `consolidate.cosine_similarity` is symmetric on equal-length
vectors, returns `0.0` whenever either vector has zero norm instead of
dividing by zero, and consequently a note whose representative vector
has zero norm is never absorbed into — indeed never appears in — any
cluster produced by `cluster_notes` at the default `0.70` threshold. -/
theorem cosine_similarity_symm_zero_safe :
    (∀ v1 v2 : List ℚ, v1.length = v2.length →
      cosine_similarity v1 v2 = cosine_similarity v2 v1) ∧
    (∀ v1 v2 : List ℚ, normR v1 = 0 ∨ normR v2 = 0 →
      cosine_similarity v1 v2 = 0) ∧
    (∀ (notes : List Note) (n : Note), normR n.embedding = 0 →
      ∀ cl ∈ cluster_notes notes, n ∉ cl) := by
  refine ⟨fun v1 v2 _ => cosine_similarity_comm_all v1 v2,
    fun v1 v2 h => cosine_similarity_zero_left v1 v2 h, ?_⟩
  intro notes n hzero cl hcl hmem
  obtain ⟨hlen, seed, tail, hcl2, _, hne, htail⟩ :=
    clusterAux_mem (7/10) notes [] cl hcl
  subst hcl2
  rcases List.mem_cons.mp hmem with rfl | htl
  · obtain ⟨b, hb⟩ := List.exists_mem_of_ne_nil tail hne
    have hsim := (htail b hb).2
    rw [cosine_similarity_zero_left _ _ (Or.inl hzero)] at hsim
    norm_num at hsim
  · have hsim := (htail n htl).2
    rw [cosine_similarity_zero_left _ _ (Or.inr hzero)] at hsim
    norm_num at hsim

/-- C10 witness: symmetry and the zero-norm guard evaluated on the
concrete vectors `[0]` and `[1]`. -/
theorem cosine_similarity_symm_zero_safe_witness :
    cosine_similarity [(0 : ℚ)] [(1 : ℚ)] = cosine_similarity [(1 : ℚ)] [(0 : ℚ)] ∧
    cosine_similarity [(0 : ℚ)] [(1 : ℚ)] = 0 := by
  constructor
  · exact cosine_similarity_symm_zero_safe.1 [0] [1] rfl
  · exact cosine_similarity_symm_zero_safe.2.1 [0] [1]
      (Or.inl (by norm_num [normR, sumSq]))

/-! ## C9 — which notes consolidation considers, and how it clusters -/

/-- C9 counterexample: an item of `source_type = text` whose total
chunk-body length is `0 ≤ 300` is *not* fetched by
`fetch_small_notes` (the SQL also demands a positive length), so the
considered set is not "exactly the text items with total length
≤ 300". -/
theorem fetch_small_notes_not_claim_set :
    (fetch_small_notes
      { emptyStore with
          items := [{ id := 1, source_path := "a", source_type := "text",
                      file_hash := some "h1" }]
          content := [{ id := 10, item_id := 1, chunk_index := 0, body := "" }]
          embeddings := [{ id := 20, content_id := 10, item_id := 1, vector := [1] }] }
      300).map (fun n => n.item_id) ≠
    claimSmallNoteIds
      { emptyStore with
          items := [{ id := 1, source_path := "a", source_type := "text",
                      file_hash := some "h1" }]
          content := [{ id := 10, item_id := 1, chunk_index := 0, body := "" }]
          embeddings := [{ id := 20, content_id := 10, item_id := 1, vector := [1] }] }
      300 := by
  decide

/-- C9 (amended): consolidation considers exactly the items with
`source_type = text` whose total chunk-body length is positive and at
most 300 and which have at least one embedding; each is represented by
its first stored embedding; and every cluster produced by the seeded
single pass has more than one note, headed by its seed, every absorbed
note being a later note whose cosine similarity to the seed reaches
the threshold (0.70 by default). -/
theorem consolidation_considered_set (st : Store) (max_length : Nat) :
    ((fetch_small_notes st max_length).map (fun n => n.item_id) =
      (st.items.filter (fun it =>
        it.source_type = "text" ∧ 0 < totalBodyLength st it.id ∧
        totalBodyLength st it.id ≤ max_length ∧
        get_embeddings_for_item st it.id ≠ [])).map (fun it => it.id)) ∧
    (∀ n ∈ fetch_small_notes st max_length,
      ∃ rest, get_embeddings_for_item st n.item_id = n.embedding :: rest) ∧
    (∀ (thr : ℝ) (notes : List Note), ∀ cl ∈ cluster_notes notes thr,
      1 < cl.length ∧ ∃ seed tail, cl = seed :: tail ∧ seed ∈ notes ∧ tail ≠ [] ∧
        ∀ b ∈ tail, b ∈ notes ∧ thr ≤ cosine_similarity seed.embedding b.embedding) := by
  refine ⟨?_, ?_, fun thr notes cl hcl => clusterAux_mem thr notes [] cl hcl⟩
  · unfold fetch_small_notes
    induction st.items with
    | nil => simp
    | cons a l ih =>
      by_cases hp : a.source_type = "text" ∧ 0 < totalBodyLength st a.id ∧
          totalBodyLength st a.id ≤ max_length
      · rcases hemb : get_embeddings_for_item st a.id with _ | ⟨e, rest⟩
        · simp only [List.filter_cons]
          rw [if_pos (by simpa using hp), if_neg (by simp [hp, hemb])]
          simp only [List.filterMap_cons]
          rw [hemb]
          exact ih
        · simp only [List.filter_cons]
          rw [if_pos (by simpa using hp), if_pos (by simp [hp, hemb])]
          simp only [List.filterMap_cons]
          rw [hemb]
          simpa using ih
      · simp only [List.filter_cons]
        rw [if_neg (by simpa using hp), if_neg (by
          intro hcontra
          rw [decide_eq_true_eq] at hcontra
          exact hp ⟨hcontra.1, hcontra.2.1, hcontra.2.2.1⟩)]
        exact ih
  · intro n hn
    unfold fetch_small_notes at hn
    rw [List.mem_filterMap] at hn
    obtain ⟨it, _, hF⟩ := hn
    rcases hemb : get_embeddings_for_item st it.id with _ | ⟨e, rest⟩
    · rw [hemb] at hF
      simp at hF
    · rw [hemb] at hF
      simp only [Option.some.injEq] at hF
      refine ⟨rest, ?_⟩
      rw [← hF]
      exact hemb

/-- C9 witness: on a store with one well-formed small text note, the
considered set is exactly that item. -/
theorem consolidation_considered_set_witness :
    (fetch_small_notes smallNoteStore 300).map (fun n => n.item_id) =
      (smallNoteStore.items.filter (fun it =>
        it.source_type = "text" ∧ 0 < totalBodyLength smallNoteStore it.id ∧
        totalBodyLength smallNoteStore it.id ≤ 300 ∧
        get_embeddings_for_item smallNoteStore it.id ≠ [])).map (fun it => it.id) := by
  exact (consolidation_considered_set smallNoteStore 300).1

/-! ## Collapse-map lemmas (C3, C4) -/

theorem omax_none_right (x : Option ℚ) : omax x none = x := by
  cases x <;> rfl

theorem omax_assoc (x y z : Option ℚ) : omax (omax x y) z = omax x (omax y z) := by
  cases x <;> cases y <;> cases z <;> simp [omax, max_assoc]

theorem bestOf_cons (v : ℚ) (l : List ℚ) :
    bestOf (v :: l) = omax (some v) (bestOf l) := by
  cases h : bestOf l <;> simp [bestOf, omax, h]

theorem findIsSome_iff_mem_keys (m : List (Int × String × ℚ)) (k : Int) :
    (m.find? (fun p => p.1 = k)).isSome = true ↔ k ∈ m.map (fun p => p.1) := by
  rw [List.find?_isSome]
  simp [eq_comm]

theorem collapseUpdate_key (e p0 : Int × String × ℚ) :
    ((if p0.1 = e.1 ∧ p0.2.2 < e.2.2 then e else p0) : Int × String × ℚ).1 = p0.1 := by
  split
  · rename_i h
    exact h.1.symm
  · rfl

theorem collapseStep_keys (acc : List (Int × String × ℚ)) (e : Int × String × ℚ) :
    (collapseStep acc e).map (fun p => p.1) =
      if (acc.find? (fun p => p.1 = e.1)).isSome = true then acc.map (fun p => p.1)
      else acc.map (fun p => p.1) ++ [e.1] := by
  unfold collapseStep
  split
  · rw [List.map_map]
    apply List.map_congr_left
    intro p0 _
    exact collapseUpdate_key e p0
  · simp

theorem find_map_update_score (e : Int × String × ℚ)
    (acc : List (Int × String × ℚ)) :
    (((acc.map (fun p0 => if p0.1 = e.1 ∧ p0.2.2 < e.2.2 then e else p0)).find?
        (fun p => p.1 = e.1)).map (fun p => p.2.2)) =
      (match ((acc.find? (fun p => p.1 = e.1)).map (fun p => p.2.2)) with
       | none => none
       | some s => some (max s e.2.2)) := by
  induction acc with
  | nil => rfl
  | cons a acc ih =>
    by_cases ha : a.1 = e.1
    · rw [List.map_cons]
      rw [List.find?_cons_of_pos _ (by
        rw [decide_eq_true_eq, collapseUpdate_key e a]
        exact ha)]
      rw [List.find?_cons_of_pos _ (by rw [decide_eq_true_eq]; exact ha)]
      simp only [Option.map_some']
      by_cases hlt : a.2.2 < e.2.2
      · rw [if_pos ⟨ha, hlt⟩]
        rw [max_eq_right (le_of_lt hlt)]
      · rw [if_neg (fun hc => hlt hc.2)]
        rw [max_eq_left (not_lt.mp hlt)]
    · rw [List.map_cons]
      rw [List.find?_cons_of_neg _ (by
        rw [decide_eq_true_eq, collapseUpdate_key e a]
        exact ha)]
      rw [List.find?_cons_of_neg _ (by rw [decide_eq_true_eq]; exact ha)]
      exact ih

theorem collapseStep_lookup_score (acc : List (Int × String × ℚ))
    (e : Int × String × ℚ) (i : Int) :
    ((collapseStep acc e).find? (fun p => p.1 = i)).map (fun p => p.2.2) =
      if i = e.1 then
        omax ((acc.find? (fun p => p.1 = i)).map (fun p => p.2.2)) (some e.2.2)
      else (acc.find? (fun p => p.1 = i)).map (fun p => p.2.2) := by
  unfold collapseStep
  split
  · rename_i hsome
    by_cases hi : i = e.1
    · rw [if_pos hi]
      subst hi
      rw [find_map_update_score]
      cases hfind : acc.find? (fun p => p.1 = e.1) with
      | none =>
        rw [hfind] at hsome
        simp at hsome
      | some x => simp [omax]
    · rw [if_neg hi]
      rw [List.find?_map]
      have hpf : ((fun p : Int × String × ℚ => decide (p.1 = i)) ∘
          (fun p0 : Int × String × ℚ =>
            if p0.1 = e.1 ∧ p0.2.2 < e.2.2 then e else p0)) =
          (fun p0 : Int × String × ℚ => decide (p0.1 = i)) := by
        funext p0
        simp only [Function.comp_apply]
        rw [collapseUpdate_key e p0]
      rw [hpf, Option.map_map]
      cases hfind : acc.find? (fun p => p.1 = i) with
      | none => rfl
      | some x =>
        have hx := List.find?_some hfind
        rw [decide_eq_true_eq] at hx
        simp only [Option.map_some', Function.comp_apply]
        rw [if_neg (fun hc => hi (by rw [← hx, hc.1]))]
  · rename_i hnone
    by_cases hi : i = e.1
    · rw [if_pos hi]
      subst hi
      have hfn : acc.find? (fun p => p.1 = e.1) = none := by
        cases h : acc.find? (fun p => p.1 = e.1) with
        | none => rfl
        | some x =>
          rw [h] at hnone
          simp at hnone
      rw [List.find?_append, hfn]
      simp [omax]
    · rw [if_neg hi]
      rw [List.find?_append]
      have : [e].find? (fun p => p.1 = i) = none := by
        rw [List.find?_cons_of_neg _ (by
          rw [decide_eq_true_eq]
          exact fun h => hi h.symm)]
        rfl
      rw [this, Option.or_none]

theorem collapse_fold_lookup (i : Int) :
    ∀ (entries : List (Int × String × ℚ)) (acc : List (Int × String × ℚ)),
      ((entries.foldl collapseStep acc).find? (fun p => p.1 = i)).map (fun p => p.2.2) =
        omax ((acc.find? (fun p => p.1 = i)).map (fun p => p.2.2))
          (bestOf ((entries.filter (fun p => p.1 = i)).map (fun p => p.2.2))) := by
  intro entries
  induction entries with
  | nil =>
    intro acc
    simp only [List.foldl_nil, List.filter_nil, List.map_nil]
    rw [show bestOf [] = none from rfl, omax_none_right]
  | cons e tl ih =>
    intro acc
    rw [List.foldl_cons, ih (collapseStep acc e), collapseStep_lookup_score]
    by_cases hi : i = e.1
    · rw [if_pos hi, omax_assoc]
      rw [List.filter_cons, if_pos (by rw [decide_eq_true_eq]; exact hi.symm)]
      rw [List.map_cons, bestOf_cons]
    · rw [if_neg hi]
      rw [List.filter_cons, if_neg (by
        rw [decide_eq_true_eq]
        exact fun h => hi h.symm)]

theorem collapse_fold_keys :
    ∀ (entries : List (Int × String × ℚ)) (acc : List (Int × String × ℚ)),
      (entries.foldl collapseStep acc).map (fun p => p.1) =
        (entries.map (fun p => p.1)).foldl
          (fun ks k => if k ∈ ks then ks else ks ++ [k]) (acc.map (fun p => p.1)) := by
  intro entries
  induction entries with
  | nil => intro acc; rfl
  | cons e tl ih =>
    intro acc
    rw [List.foldl_cons, List.map_cons, List.foldl_cons, ih]
    congr 1
    rw [collapseStep_keys]
    by_cases h : e.1 ∈ acc.map (fun p => p.1)
    · rw [if_pos ((findIsSome_iff_mem_keys acc e.1).mpr h), if_pos h]
    · rw [if_neg (fun hc => h ((findIsSome_iff_mem_keys acc e.1).mp hc)), if_neg h]

theorem dedupFold_mem (x : Int) :
    ∀ (l : List Int) (ks0 : List Int),
      x ∈ l.foldl (fun ks k => if k ∈ ks then ks else ks ++ [k]) ks0 ↔
        x ∈ ks0 ∨ x ∈ l := by
  intro l
  induction l with
  | nil => intro ks0; simp
  | cons k tl ih =>
    intro ks0
    rw [List.foldl_cons, ih]
    by_cases hk : k ∈ ks0
    · rw [if_pos hk]
      constructor
      · rintro (h | h)
        · exact Or.inl h
        · exact Or.inr (List.mem_cons_of_mem k h)
      · rintro (h | h)
        · exact Or.inl h
        · rcases List.mem_cons.mp h with rfl | h2
          · exact Or.inl hk
          · exact Or.inr h2
    · rw [if_neg hk]
      constructor
      · rintro (h | h)
        · rcases List.mem_append.mp h with h1 | h1
          · exact Or.inl h1
          · exact Or.inr (List.mem_cons.mpr (Or.inl (List.mem_singleton.mp h1)))
        · exact Or.inr (List.mem_cons_of_mem k h)
      · rintro (h | h)
        · exact Or.inl (List.mem_append.mpr (Or.inl h))
        · rcases List.mem_cons.mp h with rfl | h2
          · exact Or.inl (List.mem_append.mpr (Or.inr (List.mem_singleton_self x)))
          · exact Or.inr h2

theorem dedupFold_nodup :
    ∀ (l : List Int) (ks0 : List Int), ks0.Nodup →
      (l.foldl (fun ks k => if k ∈ ks then ks else ks ++ [k]) ks0).Nodup := by
  intro l
  induction l with
  | nil => intro ks0 h; exact h
  | cons k tl ih =>
    intro ks0 h
    rw [List.foldl_cons]
    by_cases hk : k ∈ ks0
    · rw [if_pos hk]
      exact ih ks0 h
    · rw [if_neg hk]
      refine ih _ ?_
      rw [← List.concat_eq_append]
      exact h.concat hk

theorem mem_dedupFirst_iff (x : Int) (l : List Int) :
    x ∈ dedupFirst l ↔ x ∈ l := by
  unfold dedupFirst
  rw [dedupFold_mem]
  simp

theorem assoc_map_keyscore (m : List (Int × String × ℚ))
    (hm : (m.map (fun p => p.1)).Nodup) :
    m.map (fun p => p.2.2) =
      (m.map (fun p => p.1)).map (fun k =>
        ((m.find? (fun p => p.1 = k)).map (fun p => p.2.2)).getD 0) := by
  induction m with
  | nil => rfl
  | cons a m ih =>
    rw [List.map_cons, List.map_cons, List.map_cons]
    have hm' := List.nodup_cons.mp hm
    congr 1
    · rw [List.find?_cons_of_pos _ (by rw [decide_eq_true_eq])]
      rfl
    · rw [ih hm'.2]
      apply List.map_congr_left
      intro k hk
      rw [List.find?_cons_of_neg _ (by
        rw [decide_eq_true_eq]
        exact fun h => hm'.1 (show a.1 ∈ _ by rw [h]; exact hk))]

theorem semanticMap_lookup (sp : Bool) (rows : List SemSqlRow) (i : Int) :
    ((semanticMap sp rows).find? (fun p => p.1 = i)).map (fun p => p.2.2) =
      bestOf ((rows.filter (fun r => r.item_id = i)).map (baseSemScore sp)) := by
  unfold semanticMap collapsePairs
  rw [collapse_fold_lookup]
  rw [List.filter_map, List.map_map]
  rfl

theorem lexicalMap_lookup (rows : List LexRow) (i : Int) :
    ((lexicalMap rows).find? (fun p => p.1 = i)).map (fun p => p.2.2) =
      bestLex rows i := by
  unfold lexicalMap collapsePairs
  rw [collapse_fold_lookup]
  rw [List.filter_map, List.map_map]
  rfl

theorem semanticMap_keys (sp : Bool) (rows : List SemSqlRow) :
    (semanticMap sp rows).map (fun p => p.1) =
      dedupFirst (rows.map (fun r => r.item_id)) := by
  unfold semanticMap collapsePairs dedupFirst
  rw [collapse_fold_keys, List.map_map]
  rfl

theorem lexicalMap_keys (rows : List LexRow) :
    (lexicalMap rows).map (fun p => p.1) =
      dedupFirst (rows.map (fun r => r.item_id)) := by
  unfold lexicalMap collapsePairs dedupFirst
  rw [collapse_fold_keys, List.map_map]
  rfl

theorem lexicalMap_keys_nodup (rows : List LexRow) :
    ((lexicalMap rows).map (fun p => p.1)).Nodup := by
  rw [lexicalMap_keys]
  exact dedupFold_nodup _ [] List.nodup_nil

theorem lexicalMap_values (rows : List LexRow) :
    (lexicalMap rows).map (fun p => p.2.2) = lexCandidateBests rows := by
  rw [assoc_map_keyscore _ (lexicalMap_keys_nodup rows), lexicalMap_keys]
  unfold lexCandidateBests
  apply List.map_congr_left
  intro k _
  rw [lexicalMap_lookup]

theorem lexicalMap_eq_nil_iff (rows : List LexRow) :
    lexicalMap rows = [] ↔ rows = [] := by
  constructor
  · intro h
    cases rows with
    | nil => rfl
    | cons r tl =>
      have hk := lexicalMap_keys (r :: tl)
      rw [h] at hk
      have : r.item_id ∈ dedupFirst ((r :: tl).map (fun r => r.item_id)) := by
        rw [mem_dedupFirst_iff]
        exact List.mem_map_of_mem _ (List.mem_cons_self r tl)
      rw [← hk] at this
      simp at this
  · intro h
    rw [h]
    rfl

theorem fuseHit_score (sp : Bool) (semRows : List SemSqlRow)
    (lexRows : List LexRow) (i : Int) :
    (fuseHit (semanticMap sp semRows) (lexicalMap lexRows) i).score =
      codeSem sp semRows i * (3/5) + codeLexNorm lexRows i * (2/5) := by
  unfold fuseHit
  dsimp only
  have hs : ((alookup (semanticMap sp semRows) i).map (fun p => p.2)).getD 0 =
      codeSem sp semRows i := by
    unfold alookup codeSem
    rw [Option.map_map]
    rw [show ((fun p : String × ℚ => p.2) ∘ (fun p : Int × String × ℚ => p.2)) =
      (fun p : Int × String × ℚ => p.2.2) from rfl]
    rw [semanticMap_lookup]
  have hraw : ((alookup (lexicalMap lexRows) i).map (fun p => p.2)).getD 0 =
      (bestLex lexRows i).getD 0 := by
    unfold alookup
    rw [Option.map_map]
    rw [show ((fun p : String × ℚ => p.2) ∘ (fun p : Int × String × ℚ => p.2)) =
      (fun p : Int × String × ℚ => p.2.2) from rfl]
    rw [lexicalMap_lookup]
  rw [hs, hraw]
  by_cases hnil : lexRows = []
  · subst hnil
    rw [show lexicalMap ([] : List LexRow) = [] from rfl, if_pos rfl]
    rw [show codeLexNorm ([] : List LexRow) i = 0 from rfl]
  · have hlex : lexicalMap lexRows ≠ [] := fun h => hnil ((lexicalMap_eq_nil_iff lexRows).mp h)
    rw [if_neg hlex, if_neg hlex]
    unfold codeLexNorm
    rw [lexicalMap_values]
    cases hb : lexCandidateBests lexRows with
    | nil =>
      exfalso
      apply hlex
      have := lexicalMap_values lexRows
      rw [hb] at this
      exact List.map_eq_nil_iff.mp this
    | cons v tl => rfl

theorem fuse_mem (sp : Bool) (semRows : List SemSqlRow) (lexRows : List LexRow)
    (limit : Nat) :
    ∀ h ∈ fuseResults sp semRows lexRows limit,
      h.score = codeSem sp semRows h.item_id * (3/5) +
        codeLexNorm lexRows h.item_id * (2/5) ∧
      (h.item_id ∈ semRows.map (fun r => r.item_id) ∨
        h.item_id ∈ lexRows.map (fun r => r.item_id)) := by
  intro h hmem
  unfold fuseResults at hmem
  dsimp only at hmem
  have h1 := (List.take_sublist limit _).mem hmem
  have h2 := (List.perm_insertionSort (fun a b : SearchHit => b.score ≤ a.score) _).subset h1
  rw [List.mem_map] at h2
  obtain ⟨i, hi, rfl⟩ := h2
  constructor
  · exact fuseHit_score sp semRows lexRows i
  · show i ∈ _ ∨ i ∈ _
    rcases List.mem_append.mp hi with hsem | hlex
    · left
      rw [semanticMap_keys] at hsem
      rw [← mem_dedupFirst_iff]
      exact hsem
    · right
      have := (List.mem_filter.mp hlex).1
      rw [lexicalMap_keys] at this
      rw [← mem_dedupFirst_iff]
      exact this

theorem fuse_sorted (sp : Bool) (semRows : List SemSqlRow) (lexRows : List LexRow)
    (limit : Nat) :
    (fuseResults sp semRows lexRows limit).Sorted
      (fun a b : SearchHit => b.score ≤ a.score) := by
  unfold fuseResults
  dsimp only
  haveI : IsTotal SearchHit (fun a b : SearchHit => b.score ≤ a.score) :=
    ⟨fun a b => le_total b.score a.score⟩
  haveI : IsTrans SearchHit (fun a b : SearchHit => b.score ≤ a.score) :=
    ⟨fun a b c h1 h2 => le_trans h2 h1⟩
  exact List.Pairwise.sublist (List.take_sublist _ _) (List.sorted_insertionSort _ _)

theorem fuse_length (sp : Bool) (semRows : List SemSqlRow) (lexRows : List LexRow)
    (limit : Nat) : (fuseResults sp semRows lexRows limit).length ≤ limit := by
  unfold fuseResults
  dsimp only
  exact List.length_take_le limit _

/-! ## C3 — fused score formula -/

/-- C3 counterexample: for an item whose metadata vector exists but is
orthogonal to the query (`meta_score = 0`), the source keeps the pure
chunk score (`meta_score > 0` test) while the claim's formula
(`0.7·chunk + 0.3·meta` whenever the metadata vector exists) gives a
different final score: `0.6` versus the claimed `0.42`. -/
theorem fuse_not_claim_score :
    ¬ (∀ h ∈ fuseResults false [⟨1, "s", 0, some (1, 0)⟩] [] 10,
        h.score = claimScore false [⟨1, "s", 0, some (1, 0)⟩] [] h.item_id) := by
  intro hall
  have heval : fuseResults false [⟨1, "s", 0, some (1, 0)⟩] [] 10 =
      [⟨1, 3/5, "s"⟩] := by
    norm_num [fuseResults, fuseHit, semanticMap, lexicalMap, collapsePairs, collapseStep,
      alookup, baseSemScore, chunkScore, metaScore, sessionScore, List.insertionSort,
      List.orderedInsert]
    intro h
    exact h.symm
  have hclaim : claimScore false [⟨1, "s", 0, some (1, 0)⟩] [] 1 = 21/50 := by
    norm_num [claimScore, claimSem, claimLexNorm, claimBaseSem, bestOf, bestLex,
      chunkScore, metaScore, sessionScore, lexCandidateBests, dedupFirst]
  have h1 := hall ⟨1, 3/5, "s"⟩ (by rw [heval]; exact List.mem_singleton_self _)
  rw [show (⟨1, 3/5, "s"⟩ : SearchHit).item_id = 1 from rfl, hclaim] at h1
  norm_num at h1

/-- C3 (amended): every returned item's score equals
`0.6·sem + 0.4·lex_norm`, where `sem` is the per-item best of
(`0.7·chunk + 0.3·meta` when `meta_score > 0`, else `chunk`) plus the
recency boost `(session_score − 0.4)·0.4` added only when
`session_score > 0.4`, and `lex_norm` is the item's best BM25 score
shifted by the candidate minimum and divided by the candidate range
(an item with no BM25 score contributes a raw `0`, which is shifted
and scaled the same way; when all candidate scores are equal the range
is 1); results are sorted by score descending and truncated to
`limit`. -/
theorem search_fusion_scores (sp : Bool) (semRows : List SemSqlRow)
    (lexRows : List LexRow) (limit : Nat) :
    (∀ h ∈ fuseResults sp semRows lexRows limit,
      h.score = codeSem sp semRows h.item_id * (3/5) +
        codeLexNorm lexRows h.item_id * (2/5)) ∧
    (fuseResults sp semRows lexRows limit).Sorted
      (fun a b : SearchHit => b.score ≤ a.score) ∧
    (fuseResults sp semRows lexRows limit).length ≤ limit :=
  ⟨fun h hmem => (fuse_mem sp semRows lexRows limit h hmem).1,
   fuse_sorted sp semRows lexRows limit,
   fuse_length sp semRows lexRows limit⟩

/-- C3 witness: the score equation evaluated on a concrete one-row
retrieval. -/
theorem search_fusion_scores_witness :
    (⟨1, 3/5, "s"⟩ : SearchHit).score =
      codeSem false [⟨1, "s", 0, some (1, 0)⟩] 1 * (3/5) +
        codeLexNorm [] 1 * (2/5) := by
  have heval : fuseResults false [⟨1, "s", 0, some (1, 0)⟩] [] 10 =
      [⟨1, 3/5, "s"⟩] := by
    norm_num [fuseResults, fuseHit, semanticMap, lexicalMap, collapsePairs, collapseStep,
      alookup, baseSemScore, chunkScore, metaScore, sessionScore, List.insertionSort,
      List.orderedInsert]
    intro h
    exact h.symm
  exact (search_fusion_scores false [⟨1, "s", 0, some (1, 0)⟩] [] 10).1
    ⟨1, 3/5, "s"⟩ (by rw [heval]; exact List.mem_singleton_self _)

/-! ## C4 — fused score bounds -/

theorem foldl_min_le_init (w : ℚ) (tl : List ℚ) : tl.foldl min w ≤ w := by
  induction tl generalizing w with
  | nil => exact le_refl w
  | cons a tl ih =>
    rw [List.foldl_cons]
    exact le_trans (ih (min w a)) (min_le_left w a)

theorem foldl_max_ge_init (w : ℚ) (tl : List ℚ) : w ≤ tl.foldl max w := by
  induction tl generalizing w with
  | nil => exact le_refl w
  | cons a tl ih =>
    rw [List.foldl_cons]
    exact le_trans (le_max_left w a) (ih (max w a))

theorem foldl_min_le_mem (tl : List ℚ) :
    ∀ (v x : ℚ), x ∈ v :: tl → tl.foldl min v ≤ x := by
  induction tl with
  | nil =>
    intro v x hx
    rw [List.mem_singleton] at hx
    rw [List.foldl_nil, hx]
  | cons a tl ih =>
    intro v x hx
    rw [List.foldl_cons]
    rcases List.mem_cons.mp hx with rfl | hx2
    · exact le_trans (foldl_min_le_init _ _) (min_le_left x a)
    · rcases List.mem_cons.mp hx2 with rfl | hx3
      · exact le_trans (foldl_min_le_init _ _) (min_le_right v x)
      · exact ih (min v a) x (List.mem_cons_of_mem _ hx3)

theorem foldl_max_ge_mem (tl : List ℚ) :
    ∀ (v x : ℚ), x ∈ v :: tl → x ≤ tl.foldl max v := by
  induction tl with
  | nil =>
    intro v x hx
    rw [List.mem_singleton] at hx
    rw [List.foldl_nil, hx]
  | cons a tl ih =>
    intro v x hx
    rw [List.foldl_cons]
    rcases List.mem_cons.mp hx with rfl | hx2
    · exact le_trans (le_max_left x a) (foldl_max_ge_init _ _)
    · rcases List.mem_cons.mp hx2 with rfl | hx3
      · exact le_trans (le_max_right v x) (foldl_max_ge_init _ _)
      · exact ih (max v a) x (List.mem_cons_of_mem _ hx3)

theorem baseSemScore_bounds (sp : Bool) (r : SemSqlRow)
    (hc : 0 ≤ r.chunkDist ∧ r.chunkDist ≤ 1)
    (hm : ∀ md sd, r.metaInfo = some (md, sd) →
      0 ≤ md ∧ md ≤ 1 ∧ 0 ≤ sd ∧ sd ≤ 1) :
    0 ≤ baseSemScore sp r ∧ baseSemScore sp r ≤ 31/25 := by
  have hcs : 0 ≤ chunkScore r ∧ chunkScore r ≤ 1 := by
    unfold chunkScore
    constructor <;> linarith [hc.1, hc.2]
  have hms : 0 ≤ metaScore r ∧ metaScore r ≤ 1 := by
    cases hmi : r.metaInfo with
    | none => simp [metaScore, hmi]
    | some md =>
      obtain ⟨h1, h2, _, _⟩ := hm md.1 md.2 (by rw [hmi])
      have heq : metaScore r = 1 - md.1 := by simp [metaScore, hmi]
      rw [heq]
      constructor <;> linarith
  have hss : 0 ≤ sessionScore sp r ∧ sessionScore sp r ≤ 1 := by
    cases sp with
    | false => simp [sessionScore]
    | true =>
      cases hmi : r.metaInfo with
      | none => simp [sessionScore, hmi]
      | some md =>
        obtain ⟨_, _, h3, h4⟩ := hm md.1 md.2 (by rw [hmi])
        have heq : sessionScore true r = 1 - md.2 := by simp [sessionScore, hmi]
        rw [heq]
        constructor <;> linarith
  unfold baseSemScore
  dsimp only
  split_ifs with h1 h2 h3
  · constructor <;> nlinarith [hcs.1, hcs.2, hms.1, hms.2, hss.1, hss.2]
  · constructor <;> nlinarith [hcs.1, hcs.2, hms.1, hms.2]
  · constructor <;> nlinarith [hcs.1, hcs.2, hss.1, hss.2]
  · constructor <;> nlinarith [hcs.1, hcs.2]

theorem bestOf_getD_bounds (B : ℚ) (hB : 0 ≤ B) :
    ∀ (l : List ℚ), (∀ x ∈ l, 0 ≤ x ∧ x ≤ B) →
      0 ≤ (bestOf l).getD 0 ∧ (bestOf l).getD 0 ≤ B := by
  intro l
  induction l with
  | nil =>
    intro _
    exact ⟨le_refl 0, hB⟩
  | cons v tl ih =>
    intro h
    rw [bestOf_cons]
    have hv := h v (List.mem_cons_self v tl)
    have ih2 := ih (fun x hx => h x (List.mem_cons_of_mem _ hx))
    cases htl : bestOf tl with
    | none => simpa [omax] using hv
    | some m =>
      rw [htl] at ih2
      simp only [omax, Option.getD_some] at ih2 ⊢
      exact ⟨le_max_of_le_left hv.1, max_le hv.2 ih2.2⟩

theorem codeSem_bounds (sp : Bool) (semRows : List SemSqlRow) (i : Int)
    (hchunk : ∀ r ∈ semRows, 0 ≤ r.chunkDist ∧ r.chunkDist ≤ 1)
    (hmeta : ∀ r ∈ semRows, ∀ md sd, r.metaInfo = some (md, sd) →
      0 ≤ md ∧ md ≤ 1 ∧ 0 ≤ sd ∧ sd ≤ 1) :
    0 ≤ codeSem sp semRows i ∧ codeSem sp semRows i ≤ 31/25 := by
  unfold codeSem
  apply bestOf_getD_bounds (31/25) (by norm_num)
  intro x hx
  rw [List.mem_map] at hx
  obtain ⟨r, hr, rfl⟩ := hx
  have hr2 := (List.mem_filter.mp hr).1
  exact baseSemScore_bounds sp r (hchunk r hr2) (hmeta r hr2)

theorem codeLexNorm_bounds (rows : List LexRow) (i : Int)
    (hi : i ∈ rows.map (fun r => r.item_id) ∨ rows = []) :
    0 ≤ codeLexNorm rows i ∧ codeLexNorm rows i ≤ 1 := by
  rcases hi with hi | rfl
  case inr => exact ⟨le_refl 0, show (0 : ℚ) ≤ 1 by norm_num⟩
  · unfold codeLexNorm
    cases hb : lexCandidateBests rows with
    | nil =>
      exfalso
      have hmem : i ∈ dedupFirst (rows.map (fun r => r.item_id)) :=
        (mem_dedupFirst_iff _ _).mpr hi
      have : ((bestLex rows i).getD 0) ∈ lexCandidateBests rows :=
        List.mem_map_of_mem _ hmem
      rw [hb] at this
      simp at this
    | cons v tl =>
      have hmem : i ∈ dedupFirst (rows.map (fun r => r.item_id)) :=
        (mem_dedupFirst_iff _ _).mpr hi
      have hraw : ((bestLex rows i).getD 0) ∈ v :: tl := by
        rw [← hb]
        exact List.mem_map_of_mem _ hmem
      have hmn := foldl_min_le_mem tl v _ hraw
      have hmx := foldl_max_ge_mem tl v _ hraw
      have hmnmx : tl.foldl min v ≤ tl.foldl max v :=
        le_trans (foldl_min_le_mem tl v v (List.mem_cons_self v tl))
          (foldl_max_ge_mem tl v v (List.mem_cons_self v tl))
      dsimp only
      split_ifs with hne
      · have hlt : tl.foldl min v < tl.foldl max v :=
          lt_of_le_of_ne hmnmx (fun h => hne h.symm)
        constructor
        · exact div_nonneg (by linarith) (by linarith)
        · rw [div_le_one (by linarith)]
          linarith
      · push_neg at hne
        have hle : (bestLex rows i).getD 0 ≤ tl.foldl min v := by
          rw [← hne]
          exact hmx
        have heq : (bestLex rows i).getD 0 = tl.foldl min v := le_antisymm hle hmn
        rw [heq]
        norm_num

/-- C4 counterexample: with a perfectly matching chunk, metadata and
session context plus a top BM25 score, the fused score reaches
`0.6·1.24 + 0.4 = 1.144 > 1.1`, so the claimed `[0, 1.1]` bound fails
on the code. -/
theorem fuse_score_exceeds_claimed_bound :
    ¬ (∀ h ∈ fuseResults true [⟨1, "a", 0, some (0, 0)⟩]
          [⟨1, "a", 5⟩, ⟨2, "b", 1⟩] 10,
        0 ≤ h.score ∧ h.score ≤ 11/10) := by
  intro hall
  have heval : fuseResults true [⟨1, "a", 0, some (0, 0)⟩]
      [⟨1, "a", 5⟩, ⟨2, "b", 1⟩] 10 = [⟨1, 143/125, "a"⟩, ⟨2, 0, "b"⟩] := by
    norm_num [fuseResults, fuseHit, semanticMap, lexicalMap, collapsePairs, collapseStep,
      alookup, baseSemScore, chunkScore, metaScore, sessionScore, List.insertionSort,
      List.orderedInsert, List.cons_ne_nil]
  have h1 := hall ⟨1, 143/125, "a"⟩ (by rw [heval]; exact List.mem_cons_self _ _)
  have h2 := h1.2
  norm_num at h2

/-- C4 (amended): when every retrieved cosine distance lies in [0, 1]
(so every similarity lies in [0, 1]) and either there are no BM25
candidates or every semantically retrieved item also has a BM25
candidate, every fused score lies in `[0, 1.144]` — the true maximum
being `0.6·(1 + 0.24) + 0.4 = 143/125`, not `1.1`. -/
theorem fused_score_bounded (sp : Bool) (semRows : List SemSqlRow)
    (lexRows : List LexRow) (limit : Nat)
    (hchunk : ∀ r ∈ semRows, 0 ≤ r.chunkDist ∧ r.chunkDist ≤ 1)
    (hmeta : ∀ r ∈ semRows, ∀ md sd, r.metaInfo = some (md, sd) →
      0 ≤ md ∧ md ≤ 1 ∧ 0 ≤ sd ∧ sd ≤ 1)
    (hcover : lexRows = [] ∨ ∀ r ∈ semRows, ∃ lr ∈ lexRows, lr.item_id = r.item_id) :
    ∀ h ∈ fuseResults sp semRows lexRows limit,
      0 ≤ h.score ∧ h.score ≤ 143/125 := by
  intro h hmem
  obtain ⟨hscore, hid⟩ := fuse_mem sp semRows lexRows limit h hmem
  have hsem := codeSem_bounds sp semRows h.item_id hchunk hmeta
  have hlexmem : h.item_id ∈ lexRows.map (fun r => r.item_id) ∨ lexRows = [] := by
    rcases hcover with hnil | hcov
    · exact Or.inr hnil
    · left
      rcases hid with hs | hl
      · rw [List.mem_map] at hs
        obtain ⟨r, hr, heq⟩ := hs
        obtain ⟨lr, hlr, heq2⟩ := hcov r hr
        rw [List.mem_map]
        exact ⟨lr, hlr, heq2.trans heq⟩
      · exact hl
  have hlex := codeLexNorm_bounds lexRows h.item_id hlexmem
  rw [hscore]
  constructor <;> nlinarith [hsem.1, hsem.2, hlex.1, hlex.2]

/-- C4 witness: the concrete fused result reaching the exact maximum
`143/125` satisfies the amended bounds. -/
theorem fused_score_bounded_witness :
    0 ≤ (⟨1, 143/125, "a"⟩ : SearchHit).score ∧
      (⟨1, 143/125, "a"⟩ : SearchHit).score ≤ 143/125 := by
  have heval : fuseResults true [⟨1, "a", 0, some (0, 0)⟩]
      [⟨1, "a", 5⟩, ⟨2, "b", 1⟩] 10 = [⟨1, 143/125, "a"⟩, ⟨2, 0, "b"⟩] := by
    norm_num [fuseResults, fuseHit, semanticMap, lexicalMap, collapsePairs, collapseStep,
      alookup, baseSemScore, chunkScore, metaScore, sessionScore, List.insertionSort,
      List.orderedInsert, List.cons_ne_nil]
  exact fused_score_bounded true [⟨1, "a", 0, some (0, 0)⟩]
    [⟨1, "a", 5⟩, ⟨2, "b", 1⟩] 10
    (by
      intro r hr
      rw [List.mem_singleton] at hr
      subst hr
      norm_num)
    (by
      intro r hr md sd hmi
      rw [List.mem_singleton] at hr
      subst hr
      simp only [Option.some.injEq, Prod.mk.injEq] at hmi
      obtain ⟨h1, h2⟩ := hmi
      subst h1
      subst h2
      norm_num)
    (Or.inr (by
      intro r hr
      rw [List.mem_singleton] at hr
      subst hr
      exact ⟨⟨1, "a", 5⟩, by simp, rfl⟩))
    ⟨1, 143/125, "a"⟩ (by rw [heval]; exact List.mem_cons_self _ _)

end BlackVault
